import Mathlib

/-!
Verification of the Outbound Reply Delivery Resilience Subsystem of openclaw.

The definitions below are a shallow embedding of:
  - `src/auto-reply/reply/reply-dispatcher.ts` (error classifier, human delay,
    per-conversation reply dispatcher with its serialization chain),
  - `src/auto-reply/reply/block-reply-pipeline.ts` (payload identity keys,
    dedup sets, block send chain with timeout/abort handling),
  - `src/infra/outbound/delivery-recovery-loop.ts` (recovery loop).

External collaborators that the source consumes through imports
(`formatErrorMessage`, `extractErrorCode`, `isPermanentDeliveryError`,
`normalizeReplyPayload`, the durable store operations and the channel sender)
are represented as parameters or environment-supplied data, and the retry
engine (`src/infra/retry.ts`, not part of the excerpt) is modelled from the
specification.  Stateful promise-chain code is embedded as explicit transition
systems: an action is one atomic section of the single-threaded event loop,
and theorems quantify over all schedules (lists of actions).
-/

namespace OpenClaw

/-! ### String helpers (case-insensitive substring search, digit patterns)

These implement exactly the regular expressions appearing in the source,
which are alternations of literal substrings plus the pattern `5\d\d`,
all with the `i` flag. -/

/-- Lower-case a string into a character list, mirroring case-insensitive
regex matching. -/
def lowerChars (s : String) : List Char :=
  s.data.map Char.toLower

/-- Predicate `hasPrefixChars l p`: true when `p` is a prefix of `l`. -/
def hasPrefixChars : List Char → List Char → Bool
  | _, [] => true
  | [], _ :: _ => false
  | c :: cs, p :: ps => c == p && hasPrefixChars cs ps

/-- Predicate `hasSubChars p l`: true when `p` occurs contiguously inside `l`. -/
def hasSubChars (p : List Char) : List Char → Bool
  | [] => hasPrefixChars [] p
  | c :: cs => hasPrefixChars (c :: cs) p || hasSubChars p cs

/-- Case-insensitive substring test: does `pat` occur in `s` (both
lower-cased)?  This is how each literal alternative of an `i`-flagged JS
regex matches. -/
def containsIC (s pat : String) : Bool :=
  hasSubChars (lowerChars pat) (lowerChars s)

/-- Upper-case a string character-wise (`"...".toUpperCase()` on the
ASCII codes appearing in errno-style error codes). -/
def upperString (s : String) : String :=
  String.mk (s.data.map Char.toUpper)

/-- Trim surrounding whitespace character-wise (`"...".trim()`). -/
def trimString (s : String) : String :=
  String.mk (((s.data.dropWhile Char.isWhitespace).reverse.dropWhile Char.isWhitespace).reverse)

/-- The regex fragment `5\d\d`: a literal `5` followed by two digits. -/
def hasFiveXX : List Char → Bool
  | c :: a :: b :: rest => (c == '5' && a.isDigit && b.isDigit) || hasFiveXX (a :: b :: rest)
  | _ => false

/-! ### Error model

`classifyReplyDeliveryError` in the source receives an arbitrary raised value
plus an optional sentinel `timeoutError` and observes the value only through
`formatErrorMessage` (a message string), `extractErrorCode` (an optional
errno-style code) and reference equality with the sentinel.  We embed the
raised value accordingly. -/

/-- The observable content of a non-sentinel raised error: the result of
`formatErrorMessage` and of `extractErrorCode`. -/
structure DeliveryError where
  message : String
  code : Option String
  deriving DecidableEq

/-- An error caught by the dispatcher: either the dispatcher's own timeout
sentinel (`err === timeoutError` in the source, which only exists when a
delivery timeout is configured) or an ordinary raised error. -/
inductive CaughtError where
  | sentinel (message : String)
  | raised (e : DeliveryError)
  deriving DecidableEq

/-- The message a caught error formats to (`formatErrorMessage`). -/
def CaughtError.msg : CaughtError → String
  | .sentinel m => m
  | .raised e => e.message

/-- The errno-style code of a caught error (`extractErrorCode`); the timeout
sentinel is a plain `Error` and has none. -/
def CaughtError.errCode : CaughtError → Option String
  | .sentinel _ => none
  | .raised e => e.code

/-- Whether the caught error is the dispatcher's own timeout sentinel. -/
def CaughtError.isSentinel : CaughtError → Bool
  | .sentinel _ => true
  | .raised _ => false

/-- Constant `BLOCK_DELIVERY_TRANSIENT_ERRNO_CODES` from reply-dispatcher.ts. -/
def BLOCK_DELIVERY_TRANSIENT_ERRNO_CODES : List String :=
  ["ECONNREFUSED", "EAI_AGAIN", "ENOTFOUND", "EHOSTUNREACH", "ENETUNREACH",
   "UND_ERR_CONNECT_TIMEOUT", "ERR_NETWORK"]

/-- Constant `BLOCK_DELIVERY_AMBIGUOUS_ERRNO_CODES` from reply-dispatcher.ts. -/
def BLOCK_DELIVERY_AMBIGUOUS_ERRNO_CODES : List String :=
  ["ECONNRESET", "ECONNABORTED", "ETIMEDOUT", "EPIPE", "UND_ERR_SOCKET",
   "UND_ERR_BODY_TIMEOUT", "UND_ERR_HEADERS_TIMEOUT", "UND_ERR_ABORTED"]

/-- Test of `BLOCK_DELIVERY_TRANSIENT_ERROR_RE =
`429|408|5\d\d|rate limit|retry after|temporar|unavailable|fetch failed|try again` (flag `i`). -/
def blockDeliveryTransientMsgMatch (m : String) : Bool :=
  containsIC m "429" || containsIC m "408" || hasFiveXX (lowerChars m) ||
  containsIC m "rate limit" || containsIC m "retry after" || containsIC m "temporar" ||
  containsIC m "unavailable" || containsIC m "fetch failed" || containsIC m "try again"

/-- Test of `BLOCK_DELIVERY_AMBIGUOUS_ERROR_RE =
`timeout|timed out|network|socket|connect|connection|reset|closed|hang up|premature|eof`
(flag `i`). -/
def blockDeliveryAmbiguousMsgMatch (m : String) : Bool :=
  containsIC m "timeout" || containsIC m "timed out" || containsIC m "network" ||
  containsIC m "socket" || containsIC m "connect" || containsIC m "connection" ||
  containsIC m "reset" || containsIC m "closed" || containsIC m "hang up" ||
  containsIC m "premature" || containsIC m "eof"

/-- The three delivery-error classes. -/
inductive ReplyDeliveryErrorClass where
  | permanent
  | transientDefinitive
  | transientAmbiguous
  deriving DecidableEq

/-- Upper-cased code of an error, with the JS falsy-empty-string guard:
`extractErrorCode(err)?.toUpperCase()` used under `if (code)`.  Returns
`none` when the code is absent or empty. -/
def CaughtError.upperCode (err : CaughtError) : Option String :=
  match err.errCode with
  | none => none
  | some c => if c = "" then none else some (upperString c)

/-- Shallow embedding of `classifyReplyDeliveryError` (reply-dispatcher.ts).
The predicate `isPerm` stands for the imported `isPermanentDeliveryError`,
which is applied to the formatted message. -/
def classifyReplyDeliveryError (isPerm : String → Bool) (err : CaughtError) :
    ReplyDeliveryErrorClass :=
  match err with
  | .sentinel _ => .transientAmbiguous
  | .raised e =>
    if isPerm e.message then .permanent
    else
      match CaughtError.upperCode (.raised e) with
      | some code =>
        if BLOCK_DELIVERY_AMBIGUOUS_ERRNO_CODES.contains code then .transientAmbiguous
        else if BLOCK_DELIVERY_TRANSIENT_ERRNO_CODES.contains code then .transientDefinitive
        else if blockDeliveryAmbiguousMsgMatch e.message then .transientAmbiguous
        else if blockDeliveryTransientMsgMatch e.message then .transientDefinitive
        else .permanent
      | none =>
        if blockDeliveryAmbiguousMsgMatch e.message then .transientAmbiguous
        else if blockDeliveryTransientMsgMatch e.message then .transientDefinitive
        else .permanent

/-! ### Human delay (`getHumanDelay`) -/

/-- Shape of `HumanDelayConfig`: the dispatcher reads `mode`, `minMs` and `maxMs`. -/
structure HumanDelayCfg where
  mode : Option String
  minMs : Option Nat
  maxMs : Option Nat
  deriving DecidableEq

/-- Shallow embedding of `getHumanDelay` (reply-dispatcher.ts).  `draw`
embeds the random sample: `Math.floor(Math.random() * (max - min + 1))`
ranges over `[0, max - min]`, so the draw is clamped to that interval. -/
def getHumanDelay (config : Option HumanDelayCfg) (draw : Nat) : Nat :=
  let mode := (config.bind HumanDelayCfg.mode).getD "off"
  if mode = "off" then 0
  else
    let mn := if mode = "custom" then (config.bind HumanDelayCfg.minMs).getD 800 else 800
    let mx := if mode = "custom" then (config.bind HumanDelayCfg.maxMs).getD 2500 else 2500
    if mx ≤ mn then mn
    else min draw (mx - mn) + mn

/-! ### Retry engine -/

/-- Outcome of one invocation of the injected channel sender, supplied by
the environment per attempt: success, a raised error, or expiry of the
dispatcher's own delivery timeout (`withReplyDeliveryTimeout` races the
sender promise against a timer that rejects with the sentinel error). -/
inductive AttemptOutcome where
  | ok
  | fail (e : DeliveryError)
  | timeout

/-- Result of a retried operation: eventual success or the last error
re-raised unchanged. -/
inductive RetryOutcome where
  | success
  | raised (err : CaughtError)
  deriving DecidableEq

/-- Modelled from the spec: the Retry Policy Engine (`retryAsync` from
`src/infra/retry.ts`, which is not part of the excerpt).  Given a maximum
attempt count it repeatedly invokes the operation until it succeeds, the
retry predicate returns false, or attempts are exhausted; exhaustion
re-raises the last error unchanged.  `op n` is the `n`-th (1-based)
invocation's outcome, `sr` is the retry predicate threading the caller's
mutable state (the dispatcher's `definitiveRetriesUsed` counter), `fuel`
is the number of retries still allowed, and `n` the current attempt
number.  Returns the outcome, the total number of invocations made, and
the final predicate state. -/
def retryGo {σ : Type} (op : Nat → Except CaughtError Unit)
    (sr : σ → CaughtError → Bool × σ) :
    Nat → Nat → σ → RetryOutcome × Nat × σ
  | fuel, n, s =>
    match op n with
    | .ok _ => (.success, n, s)
    | .error e =>
      match fuel with
      | 0 => (.raised e, n, s)
      | fuel' + 1 =>
        match sr s e with
        | (false, s') => (.raised e, n, s')
        | (true, s') => retryGo op sr fuel' (n + 1) s'

/-- The number of invocations made by `retryGo` is at most the starting
attempt number plus the remaining fuel. -/
theorem retryGo_calls_le {σ : Type} (op : Nat → Except CaughtError Unit)
    (sr : σ → CaughtError → Bool × σ) :
    ∀ (fuel n : Nat) (s : σ), (retryGo op sr fuel n s).2.1 ≤ n + fuel := by
  intro fuel
  induction fuel with
  | zero =>
    intro n s
    unfold retryGo
    cases op n <;> simp
  | succ fuel ih =>
    intro n s
    unfold retryGo
    cases op n with
    | ok _ => simp
    | error e =>
      simp only
      cases h : sr s e with
      | mk b s' =>
        cases b with
        | false => simp
        | true =>
          simp only
          calc (retryGo op sr fuel (n + 1) s').2.1 ≤ (n + 1) + fuel := ih (n + 1) s'
          _ = n + (fuel + 1) := by omega

/-! ### Reply dispatcher model

`createReplyDispatcher` serializes deliveries on a promise chain
(`sendChain`).  We embed one dispatcher instance as a transition system.
An action is one atomic section of the single-threaded event loop:

  - `enqueue`: the synchronous body of `enqueue(kind, payload, onResult)` —
    normalization (outcome supplied by the environment, since
    `normalizeReplyPayload` is an external collaborator), counter updates,
    the `shouldDelay` computation, and appending a link to the chain;
  - `runLink`: the next chain link running to completion (its body,
    `.catch` and `.finally` — by promise chaining link `n+1` starts only
    after link `n` has fully settled);
  - `markComplete`: the synchronous body of `markComplete()`;
  - `completeTick`: the continuation `markComplete` scheduled with
    `Promise.resolve().then(...)`.  In the event loop this microtask runs
    before any delivery that was still unsettled at `markComplete` time can
    settle, hence before any chain `finally` can clear the reservation;
    the `reservationCleared` guard encodes exactly that.

A schedule is any list of actions; theorems quantify over all schedules. -/

/-- Type `ReplyDispatchKind` from reply-dispatcher.ts. -/
inductive RDKind where
  | tool
  | block
  | final
  deriving DecidableEq

/-- Terminal outcome recorded for one enqueued payload. -/
inductive DecidedOutcome where
  | sentD
  | skippedD (reason : String)
  | failedD
  deriving DecidableEq

/-- Observable events of a dispatcher run, in trace order.  `senderCall i a`
is the `a`-th invocation of `options.deliver` for payload `i`;
`abortFired` is in the alphabet so that absence of cancellation can be
stated — `createReplyDispatcher` constructs no `AbortController`, so no
transition ever emits it. -/
inductive DEvent where
  | sleep (idx : Nat) (ms : Nat)
  | durableEnqueue (idx : Nat) (ok : Bool)
  | senderCall (idx : Nat) (attempt : Nat)
  | abortFired (idx : Nat)
  | durableDelivered (idx : Nat)
  | durableAcked (idx : Nat)
  | durableUncertain (idx : Nat)
  | durableFailed (idx : Nat)
  | decided (idx : Nat) (o : DecidedOutcome)
  | idle
  deriving DecidableEq

/-- The payload index an event belongs to, if any. -/
def DEvent.tag : DEvent → Option Nat
  | .sleep i _ => some i
  | .durableEnqueue i _ => some i
  | .senderCall i _ => some i
  | .abortFired i => some i
  | .durableDelivered i => some i
  | .durableAcked i => some i
  | .durableUncertain i => some i
  | .durableFailed i => some i
  | .decided i _ => some i
  | .idle => none

/-- Environment data for one enqueued payload: the sender's behavior per
attempt, whether the durable-store enqueue would succeed (its failure is
caught and logged), and the random draw for the human delay. -/
structure JobEnv where
  script : Nat → AttemptOutcome
  durableEnqueueOk : Bool
  delayDraw : Nat

/-- A link queued on the dispatcher's serialization chain.  `shouldDelay`
and `priorBlocks` are computed at enqueue time: `shouldDelay` is the
source's `kind === "block" && sentFirstBlock`, and `priorBlocks` records
the number of previously accepted block payloads (instrumentation used to
state the delay condition). -/
structure DJob where
  idx : Nat
  kind : RDKind
  shouldDelay : Bool
  priorBlocks : Nat
  env : JobEnv

/-- Static configuration of one dispatcher instance.  `isPerm` stands for
the imported `isPermanentDeliveryError`; `attempts` is
`blockRetryConfig.attempts` (default 3); `hasDurableRoute` is whether
`options.durableRoute` is set. -/
structure DCfg where
  isPerm : String → Bool
  attempts : Nat
  humanDelay : Option HumanDelayCfg
  deliveryTimeoutMs : Nat
  hasDurableRoute : Bool

/-- State of one dispatcher instance.  `reservationCleared` marks that the
initial `pending = 1` reservation has been consumed (by the chain
`finally` or by the `markComplete` continuation). -/
structure DState where
  nextIdx : Nat
  pending : Int
  completeCalled : Bool
  completeTickPending : Bool
  reservationCleared : Bool
  sentFirstBlock : Bool
  queuedTool : Nat
  queuedBlock : Nat
  queuedFinal : Nat
  registered : Bool
  chainQueue : List DJob
  trace : List DEvent

/-- The freshly created dispatcher: `pending = 1` (the reservation),
registered in the global dispatcher registry, empty chain. -/
def dinit : DState :=
  { nextIdx := 0, pending := 1, completeCalled := false,
    completeTickPending := false, reservationCleared := false,
    sentFirstBlock := false, queuedTool := 0, queuedBlock := 0,
    queuedFinal := 0, registered := true, chainQueue := [], trace := [] }

/-- An enqueue request: the kind, whether normalization accepted the
payload (`normalizeReplyPayloadInternal` returned non-null without
reporting a skip), the skip reason otherwise, and the environment for the
delivery. -/
structure EnqueueReq where
  kind : RDKind
  accepted : Bool
  skipReason : String
  env : JobEnv

/-- Actions of the dispatcher transition system. -/
inductive DAction where
  | enq (req : EnqueueReq)
  | runLink
  | markComplete
  | completeTick

/-- The message of the timeout sentinel error constructed per link:
`new Error(kind + " reply delivery timed out after " + timeoutMs + "ms")`. -/
def timeoutSentinelMessage (kind : RDKind) (ms : Nat) : String :=
  (match kind with
    | RDKind.tool => "tool"
    | RDKind.block => "block"
    | RDKind.final => "final") ++ " reply delivery timed out after " ++ toString ms ++ "ms"

/-- One sender invocation as seen by the retry engine: a timeout race loss
rejects with the sentinel, any other failure with the raised error. -/
def attemptOp (cfg : DCfg) (job : DJob) (n : Nat) : Except CaughtError Unit :=
  match job.env.script n with
  | .ok => .ok ()
  | .fail e => .error (.raised e)
  | .timeout => .error (.sentinel (timeoutSentinelMessage job.kind cfg.deliveryTimeoutMs))

/-- The dispatcher's retry predicate (the `shouldRetry` closure): stop on
`permanent` and `transient-ambiguous`, retry `transient-definitive` while
`definitiveRetriesUsed < maxDefinitiveRetries`, incrementing the counter. -/
def dispatcherShouldRetry (cfg : DCfg) (used : Nat) (e : CaughtError) : Bool × Nat :=
  match classifyReplyDeliveryError cfg.isPerm e with
  | .permanent => (false, used)
  | .transientAmbiguous => (false, used)
  | .transientDefinitive =>
    if cfg.attempts - 1 ≤ used then (false, used) else (true, used + 1)

/-- The events emitted while one chain link runs: the optional human-delay
sleep, the best-effort durable enqueue, the sender attempts under the
retry engine, the durable-record update, and the terminal decision. -/
def runJobEvents (cfg : DCfg) (job : DJob) : List DEvent :=
  let delayEvs : List DEvent :=
    if job.shouldDelay then
      let d := getHumanDelay cfg.humanDelay job.env.delayDraw
      if 0 < d then [.sleep job.idx d] else []
    else []
  let enqEvs : List DEvent :=
    if cfg.hasDurableRoute then [.durableEnqueue job.idx job.env.durableEnqueueOk] else []
  let hasQueueId := cfg.hasDurableRoute && job.env.durableEnqueueOk
  let r := retryGo (attemptOp cfg job) (dispatcherShouldRetry cfg) (cfg.attempts - 1) 1 0
  let callEvs : List DEvent := (List.range r.2.1).map fun a => .senderCall job.idx (a + 1)
  match r.1 with
  | .success =>
    let durEvs : List DEvent :=
      if hasQueueId then [.durableDelivered job.idx, .durableAcked job.idx] else []
    delayEvs ++ enqEvs ++ callEvs ++ durEvs ++ [.decided job.idx .sentD]
  | .raised err =>
    let durEvs : List DEvent :=
      if hasQueueId then
        if classifyReplyDeliveryError cfg.isPerm err = .transientAmbiguous then
          [.durableUncertain job.idx]
        else [.durableFailed job.idx]
      else []
    delayEvs ++ enqEvs ++ callEvs ++ durEvs ++ [.decided job.idx .failedD]

/-- The `.finally` of a chain link: decrement `pending`, clear the
reservation when only it remains and `markComplete` was called, and on
reaching zero unregister and signal idle. -/
def settleFinally (s : DState) : DState :=
  let p1 := s.pending - 1
  let clearNow := p1 = 1 ∧ s.completeCalled
  let p2 := if clearNow then p1 - 1 else p1
  let r2 := s.reservationCleared || decide clearNow
  if p2 = 0 then
    { s with pending := p2, reservationCleared := r2, registered := false,
             trace := s.trace ++ [.idle] }
  else
    { s with pending := p2, reservationCleared := r2 }

/-- One atomic step of the dispatcher. -/
def dstep (cfg : DCfg) (s : DState) : DAction → DState
  | .enq req =>
    if req.accepted then
      { s with
        nextIdx := s.nextIdx + 1,
        pending := s.pending + 1,
        queuedTool := s.queuedTool + (if req.kind = .tool then 1 else 0),
        queuedBlock := s.queuedBlock + (if req.kind = .block then 1 else 0),
        queuedFinal := s.queuedFinal + (if req.kind = .final then 1 else 0),
        sentFirstBlock := s.sentFirstBlock || decide (req.kind = .block),
        chainQueue := s.chainQueue ++
          [{ idx := s.nextIdx, kind := req.kind,
             shouldDelay := decide (req.kind = .block) && s.sentFirstBlock,
             priorBlocks := s.queuedBlock, env := req.env }] }
    else
      { s with
        nextIdx := s.nextIdx + 1,
        trace := s.trace ++ [.decided s.nextIdx (.skippedD req.skipReason)] }
  | .runLink =>
    match s.chainQueue with
    | [] => s
    | job :: rest =>
      settleFinally
        { s with chainQueue := rest, trace := s.trace ++ runJobEvents cfg job }
  | .markComplete =>
    if s.completeCalled then s
    else { s with completeCalled := true, completeTickPending := true }
  | .completeTick =>
    if s.completeTickPending ∧ ¬s.reservationCleared then
      let s1 := { s with completeTickPending := false }
      if s.pending = 1 ∧ s.completeCalled then
        { s1 with pending := 0, reservationCleared := true, registered := false,
                  trace := s1.trace ++ [.idle] }
      else s1
    else s

/-- Run a schedule of actions from a state. -/
def drun (cfg : DCfg) (s : DState) (sched : List DAction) : DState :=
  sched.foldl (dstep cfg) s

/-- Dispatcher states reachable from the freshly created dispatcher. -/
inductive DReachable (cfg : DCfg) : DState → Prop where
  | init : DReachable cfg dinit
  | step {s : DState} (a : DAction) : DReachable cfg s → DReachable cfg (dstep cfg s a)

/-! ### Block reply pipeline model

`createBlockReplyPipeline` (block-reply-pipeline.ts) is embedded for a
pipeline created without `coalescing` and without `buffer` (both optional
parameters; the coalescer is an external collaborator).  In that
configuration `enqueue` routes every payload straight to `sendPayload`.
The local `aborted` flag of the source is initialized to `false` and never
assigned afterwards anywhere in the file, so the aborted guards never
fire.  As for the dispatcher, the send chain is embedded as a transition
system whose `runLink` action is one link settling in full. -/

/-- A reply payload as observed by `createBlockReplyPayloadKey`. -/
structure PPayload where
  text : Option String
  mediaUrl : Option String
  mediaUrls : Option (List String)
  replyToId : Option String
  deriving DecidableEq

/-- The normalized identity projection `JSON.stringify({text, mediaList,
replyToId})`: since `JSON.stringify` is injective on these shapes, the key
is embedded as the triple itself. -/
structure PKey where
  text : String
  mediaList : List String
  replyToId : Option String
  deriving DecidableEq

/-- Shallow embedding of `createBlockReplyPayloadKey`. -/
def createBlockReplyPayloadKey (p : PPayload) : PKey :=
  { text := trimString (p.text.getD ""),
    mediaList :=
      match p.mediaUrls with
      | some l =>
        if l.length ≠ 0 then l
        else match p.mediaUrl with | some u => [u] | none => []
      | none => match p.mediaUrl with | some u => [u] | none => [],
    replyToId := p.replyToId }

/-- Constant `BLOCK_REPLY_TRANSIENT_ERRNO_CODES` from block-reply-pipeline.ts. -/
def BLOCK_REPLY_TRANSIENT_ERRNO_CODES : List String :=
  ["ECONNRESET", "ECONNABORTED", "ECONNREFUSED", "ETIMEDOUT", "EAI_AGAIN",
   "ENOTFOUND", "EHOSTUNREACH", "ENETUNREACH", "EPIPE"]

/-- Test of `BLOCK_REPLY_TRANSIENT_ERROR_RE` (flag `i`). -/
def blockReplyTransientMsgMatch (m : String) : Bool :=
  containsIC m "429" || containsIC m "408" || hasFiveXX (lowerChars m) ||
  containsIC m "rate limit" || containsIC m "retry after" || containsIC m "timeout" ||
  containsIC m "timed out" || containsIC m "network" || containsIC m "socket" ||
  containsIC m "connect" || containsIC m "connection" || containsIC m "reset" ||
  containsIC m "closed" || containsIC m "temporar" || containsIC m "unavailable" ||
  containsIC m "fetch failed" || containsIC m "try again"

/-- Shallow embedding of `shouldRetryBlockReplyError`. -/
def shouldRetryBlockReplyError (e : DeliveryError) : Bool :=
  match CaughtError.upperCode (.raised e) with
  | some code => BLOCK_REPLY_TRANSIENT_ERRNO_CODES.contains code
      || blockReplyTransientMsgMatch e.message
  | none => blockReplyTransientMsgMatch e.message

/-- The pipeline's retry predicate: `err !== timeoutError &&
shouldRetryBlockReplyError(err)`. -/
def pipelineShouldRetry (e : CaughtError) : Bool :=
  match e with
  | .sentinel _ => false
  | .raised er => shouldRetryBlockReplyError er

/-- Observable events of a pipeline run.  `queuedForSend k` instruments the
guard passage in `sendPayload` (the payload key was appended to the send
chain); `senderCall k a sig` is the `a`-th invocation of `onBlockReply`
for the payload with key `k`, with `sig = true` recording that the
`AbortController`'s signal was passed; `abortTriggered` records
`abortController.abort()`. -/
inductive PEvent where
  | skipped (reason : String)
  | queuedForSend (k : PKey)
  | senderCall (k : PKey) (attempt : Nat) (withAbortSignal : Bool)
  | abortTriggered (k : PKey)
  | sentEv (k : PKey)
  | failedEv (k : PKey) (reason : String)
  deriving DecidableEq

/-- A link on the pipeline's send chain. -/
structure PJob where
  key : PKey
  script : Nat → AttemptOutcome

/-- Pipeline configuration: `timeoutMs` and the resolved retry attempts
(defaults `attempts = 3`). -/
structure PCfg where
  timeoutMs : Nat
  attempts : Nat

/-- State of one pipeline instance (no coalescer, no buffer). -/
structure PState where
  seenKeys : List PKey
  sentKeys : List PKey
  pendingKeys : List PKey
  chainQueue : List PJob
  deliveryFailed : Bool
  didStream : Bool
  didLogTimeout : Bool
  trace : List PEvent

/-- The freshly created pipeline. -/
def pinit : PState :=
  { seenKeys := [], sentKeys := [], pendingKeys := [], chainQueue := [],
    deliveryFailed := false, didStream := false, didLogTimeout := false,
    trace := [] }

/-- Actions of the pipeline transition system: the synchronous part of
`enqueue(payload)` (which, with no buffer and no coalescer and no media
shortcut difference, always calls `sendPayload(payload)`), and one send
chain link settling. -/
inductive PAction where
  | enq (p : PPayload) (script : Nat → AttemptOutcome)
  | runLink

/-- One sender invocation of the pipeline as seen by the retry engine. -/
def pAttemptOp (cfg : PCfg) (job : PJob) (n : Nat) : Except CaughtError Unit :=
  match job.script n with
  | .ok => .ok ()
  | .fail e => .error (.raised e)
  | .timeout =>
    .error (.sentinel ("block reply delivery timed out after " ++ toString cfg.timeoutMs ++ "ms"))

/-- One atomic step of the pipeline. -/
def pstep (cfg : PCfg) (s : PState) : PAction → PState
  | .enq p script =>
    -- sendPayload: the aborted guard is dead (aborted is never set).
    let k := createBlockReplyPayloadKey p
    if k ∈ s.seenKeys then
      { s with trace := s.trace ++ [.skipped "duplicate-seen"] }
    else
      let s1 := { s with seenKeys := s.seenKeys ++ [k] }
      if k ∈ s1.sentKeys ∨ k ∈ s1.pendingKeys then
        { s1 with trace := s1.trace ++ [.skipped "duplicate-pending"] }
      else
        { s1 with pendingKeys := s1.pendingKeys ++ [k],
                  chainQueue := s1.chainQueue ++ [{ key := k, script := script }],
                  trace := s1.trace ++ [.queuedForSend k] }
  | .runLink =>
    match s.chainQueue with
    | [] => s
    | job :: rest =>
      let r := retryGo (pAttemptOp cfg job) (fun _ e => (pipelineShouldRetry e, ()))
        (cfg.attempts - 1) 1 ()
      let callEvs : List PEvent :=
        (List.range r.2.1).map fun a => .senderCall job.key (a + 1) true
      let s1 : PState :=
        match r.1 with
        | .success =>
          { s with sentKeys := s.sentKeys ++ [job.key], didStream := true,
                   trace := s.trace ++ callEvs ++ [.sentEv job.key] }
        | .raised (.sentinel _) =>
          { s with deliveryFailed := true, didLogTimeout := true,
                   trace := s.trace ++ callEvs ++
                     [.abortTriggered job.key, .failedEv job.key "timeout"] }
        | .raised (.raised _) =>
          { s with deliveryFailed := true,
                   trace := s.trace ++ callEvs ++ [.failedEv job.key "error"] }
      { s1 with chainQueue := rest,
                pendingKeys := s1.pendingKeys.filter (fun x => decide (x ≠ job.key)) }

/-- Run a schedule of pipeline actions from a state. -/
def prun (cfg : PCfg) (s : PState) (sched : List PAction) : PState :=
  sched.foldl (pstep cfg) s

/-- Pipeline states reachable from the freshly created pipeline. -/
inductive PReachable (cfg : PCfg) : PState → Prop where
  | init : PReachable cfg pinit
  | step {s : PState} (a : PAction) : PReachable cfg s → PReachable cfg (pstep cfg s a)

/-! ### Delivery recovery loop model -/

/-- Constructor parameters of `createDeliveryRecoveryLoop` that matter for
the effective timing configuration. -/
structure RecoveryLoopParams where
  intervalMs : Option Int
  maxRecoveryMs : Option Int

/-- Clamp `Math.max(1_000, params.intervalMs ?? DEFAULT_RECOVERY_INTERVAL_MS)`. -/
def effectiveIntervalMs (p : RecoveryLoopParams) : Int :=
  max 1000 (p.intervalMs.getD 10000)

/-- Clamp `Math.max(1_000, params.maxRecoveryMs ?? DEFAULT_RECOVERY_BUDGET_MS)`. -/
def effectiveMaxRecoveryMs (p : RecoveryLoopParams) : Int :=
  max 1000 (p.maxRecoveryMs.getD 8000)

/-- Triggers of a recovery pass. -/
inductive RTrigger where
  | startup
  | interval
  | manual
  deriving DecidableEq

/-- Observable events of the recovery loop: a durable-store scan starting
(`recoverPendingDeliveries` invoked), a scan finishing (`ok = false` when
the pass threw and was caught), and the "already running; skip" log line. -/
inductive REvent where
  | scanStart (t : RTrigger)
  | scanEnd (ok : Bool)
  | skipLog (t : RTrigger)
  deriving DecidableEq

/-- State of the recovery loop. -/
structure RState where
  timerSet : Bool
  inFlight : Bool
  stopped : Bool
  trace : List REvent
  deriving DecidableEq

/-- The freshly created loop. -/
def rinit : RState :=
  { timerSet := false, inFlight := false, stopped := false, trace := [] }

/-- Actions: `start()`, one `setInterval` tick, `runNow()`, the in-flight
pass's async body completing (reaching its `finally`), and the synchronous
part of `stop()` (set `stopped`, clear the timer; the `await inFlight` is
the schedule-level fact that a pending pass still completes via
`finishPass`). -/
inductive RAction where
  | start
  | intervalTick
  | runNow
  | finishPass (ok : Bool)
  | stop

/-- The synchronous prefix of `run(trigger)`: return if stopped; if a pass
is in flight, log and await it (no new scan); otherwise begin a pass. -/
def runTrigger (s : RState) (t : RTrigger) : RState :=
  if s.stopped then s
  else if s.inFlight then { s with trace := s.trace ++ [.skipLog t] }
  else { s with inFlight := true, trace := s.trace ++ [.scanStart t] }

/-- One atomic step of the recovery loop. -/
def rstep (s : RState) : RAction → RState
  | .start =>
    if s.timerSet || s.stopped then s
    else { runTrigger s .startup with timerSet := true }
  | .intervalTick =>
    if s.timerSet then runTrigger s .interval else s
  | .runNow => runTrigger s .manual
  | .finishPass ok =>
    if s.inFlight then { s with inFlight := false, trace := s.trace ++ [.scanEnd ok] }
    else s
  | .stop => { s with stopped := true, timerSet := false }

/-- Loop states reachable from the freshly created loop. -/
inductive RReachable : RState → Prop where
  | init : RReachable rinit
  | step {s : RState} (a : RAction) : RReachable s → RReachable (rstep s a)

/-- Number of scan starts in a trace. -/
def countScanStart (tr : List REvent) : Nat :=
  (tr.filter fun e => match e with | REvent.scanStart _ => true | _ => false).length

/-- Number of scan completions in a trace. -/
def countScanEnd (tr : List REvent) : Nat :=
  (tr.filter fun e => match e with | REvent.scanEnd _ => true | _ => false).length

/-! ### Recovery-loop lemmas and claims C10, C7, C8 -/

theorem countScanStart_append (tr ts : List REvent) :
    countScanStart (tr ++ ts) = countScanStart tr + countScanStart ts := by
  simp [countScanStart, List.filter_append]

theorem countScanEnd_append (tr ts : List REvent) :
    countScanEnd (tr ++ ts) = countScanEnd tr + countScanEnd ts := by
  simp [countScanEnd, List.filter_append]

@[simp] theorem countScanStart_nil : countScanStart [] = 0 := rfl

@[simp] theorem countScanStart_scanStartSingle (t : RTrigger) :
    countScanStart [REvent.scanStart t] = 1 := rfl

@[simp] theorem countScanStart_scanEndSingle (ok : Bool) :
    countScanStart [REvent.scanEnd ok] = 0 := rfl

@[simp] theorem countScanStart_skipLogSingle (t : RTrigger) :
    countScanStart [REvent.skipLog t] = 0 := rfl

@[simp] theorem countScanEnd_nil : countScanEnd [] = 0 := rfl

@[simp] theorem countScanEnd_scanStartSingle (t : RTrigger) :
    countScanEnd [REvent.scanStart t] = 0 := rfl

@[simp] theorem countScanEnd_scanEndSingle (ok : Bool) :
    countScanEnd [REvent.scanEnd ok] = 1 := rfl

@[simp] theorem countScanEnd_skipLogSingle (t : RTrigger) :
    countScanEnd [REvent.skipLog t] = 0 := rfl

/-- Lemma: `runTrigger` preserves the scan-counting invariant and touches neither
the stopped flag nor the timer. -/
theorem runTrigger_invariant (s : RState) (t : RTrigger)
    (ih1 : countScanStart s.trace = countScanEnd s.trace + (if s.inFlight then 1 else 0)) :
    countScanStart (runTrigger s t).trace
      = countScanEnd (runTrigger s t).trace + (if (runTrigger s t).inFlight then 1 else 0)
    ∧ (runTrigger s t).stopped = s.stopped
    ∧ (runTrigger s t).timerSet = s.timerSet := by
  unfold runTrigger
  split
  · exact ⟨ih1, rfl, rfl⟩
  · split
    · rename_i hif
      refine ⟨?_, rfl, rfl⟩
      simp [countScanStart_append, countScanEnd_append, ih1, hif]
    · rename_i hif
      simp only [Bool.not_eq_true] at hif
      refine ⟨?_, rfl, rfl⟩
      simp [countScanStart_append, countScanEnd_append, ih1, hif]

/-- The core recovery-loop invariant: scan starts exceed scan completions by
exactly the in-flight bit, and a stopped loop has no timer. -/
theorem recovery_invariant {s : RState} (h : RReachable s) :
    countScanStart s.trace = countScanEnd s.trace + (if s.inFlight then 1 else 0)
    ∧ (s.stopped = true → s.timerSet = false) := by
  induction h with
  | init => simp [rinit]
  | step a h ih =>
    obtain ⟨ih1, ih2⟩ := ih
    rename_i s
    cases a with
    | start =>
      simp only [rstep]
      split
      · exact ⟨ih1, ih2⟩
      · rename_i hguard
        simp only [Bool.or_eq_true, not_or, Bool.not_eq_true] at hguard
        obtain ⟨hrt1, hrt2, _⟩ := runTrigger_invariant s .startup ih1
        exact ⟨hrt1, fun hstop => by rw [hrt2, hguard.2] at hstop; exact absurd hstop (by simp)⟩
    | intervalTick =>
      simp only [rstep]
      split
      · obtain ⟨hrt1, hrt2, hrt3⟩ := runTrigger_invariant s .interval ih1
        refine ⟨hrt1, fun hstop => ?_⟩
        rw [hrt3]
        exact ih2 (by rw [← hrt2]; exact hstop)
      · exact ⟨ih1, ih2⟩
    | runNow =>
      simp only [rstep]
      obtain ⟨hrt1, hrt2, hrt3⟩ := runTrigger_invariant s .manual ih1
      refine ⟨hrt1, fun hstop => ?_⟩
      rw [hrt3]
      exact ih2 (by rw [← hrt2]; exact hstop)
    | finishPass ok =>
      simp only [rstep]
      split
      · rename_i hif
        refine ⟨?_, ih2⟩
        simp [countScanStart_append, countScanEnd_append, ih1, hif]
      · rename_i hif
        simp only [Bool.not_eq_true] at hif
        exact ⟨by simpa [hif] using ih1, ih2⟩
    | stop =>
      simp only [rstep]
      refine ⟨ih1, ?_⟩
      simp

/-- C7: the Delivery Recovery Loop never runs two passes concurrently.  In
every reachable state the scan starts exceed scan completions by at most the
single in-flight bit (so a second scan never opens while one is open), and
while a pass is in flight every trigger — startup, interval, or manual —
only emits the "already running; skip" log line (the caller then awaits the
existing pass) and no action invokes the durable-store scan a second time. -/
theorem recovery_no_concurrent_passes :
    ∀ s : RState, RReachable s →
      countScanStart s.trace = countScanEnd s.trace + (if s.inFlight then 1 else 0)
      ∧ (s.inFlight = true →
          ∀ a : RAction, countScanStart (rstep s a).trace = countScanStart s.trace)
      ∧ (s.inFlight = true → s.stopped = false →
          ∀ t : RTrigger, runTrigger s t =
            { s with trace := s.trace ++ [REvent.skipLog t] }) := by
  intro s h
  have hTrig : s.inFlight = true →
      ∀ t : RTrigger, countScanStart (runTrigger s t).trace = countScanStart s.trace := by
    intro hif t
    unfold runTrigger
    split
    · rfl
    · simp [hif, countScanStart_append]
  refine ⟨(recovery_invariant h).1, fun hif a => ?_, fun hif hst t => ?_⟩
  · cases a with
    | start =>
      simp only [rstep]
      split
      · rfl
      · exact hTrig hif .startup
    | intervalTick =>
      simp only [rstep]
      split
      · exact hTrig hif .interval
      · rfl
    | runNow =>
      simp only [rstep]
      exact hTrig hif .manual
    | finishPass ok =>
      simp [rstep, hif, countScanStart_append]
    | stop => rfl
  · unfold runTrigger
    simp [hif, hst]

/-- C7 witness: after a first `runNow()` trigger from the fresh loop a pass
is in flight, and a second `runNow()` does not start a second scan. -/
theorem recovery_no_concurrent_passes_witness :
    countScanStart (rstep (rstep rinit RAction.runNow) RAction.runNow).trace
      = countScanStart (rstep rinit RAction.runNow).trace :=
  (recovery_no_concurrent_passes (rstep rinit RAction.runNow)
    (RReachable.step RAction.runNow RReachable.init)).2.1 (by decide) RAction.runNow

/-- C8: once `stop()` has run, the interval timer is cleared, the stopped
flag is permanent, no action can ever start another durable-store scan
(subsequent `start()`/`runNow()`/interval ticks perform none), and a pass
that was still in flight completes via its `finally` (which `stop()`
awaits). -/
theorem recovery_stop_shuts_down :
    ∀ s : RState, RReachable s → s.stopped = true →
      s.timerSet = false
      ∧ (∀ a : RAction, (rstep s a).stopped = true
          ∧ countScanStart (rstep s a).trace = countScanStart s.trace)
      ∧ (∀ ok : Bool, s.inFlight = true → (rstep s (.finishPass ok)).inFlight = false) := by
  intro s h hst
  refine ⟨(recovery_invariant h).2 hst, fun a => ?_, fun ok hif => ?_⟩
  · cases a with
    | start =>
      simp only [rstep, hst, Bool.or_true]
      exact ⟨hst, rfl⟩
    | intervalTick =>
      simp only [rstep]
      split
      · unfold runTrigger
        simp [hst]
      · exact ⟨hst, rfl⟩
    | runNow =>
      simp only [rstep]
      unfold runTrigger
      simp [hst]
    | finishPass ok =>
      simp only [rstep]
      split
      · exact ⟨hst, by simp [countScanStart_append, countScanStart]⟩
      · exact ⟨hst, rfl⟩
    | stop => exact ⟨rfl, rfl⟩
  · simp only [rstep, hif]
    simp

/-- C8 witness: trigger a pass, call `stop()` while it is in flight; the
timer is clear, and the pass's completion clears the in-flight marker. -/
theorem recovery_stop_shuts_down_witness :
    (rstep (rstep rinit RAction.runNow) RAction.stop).timerSet = false
    ∧ (rstep (rstep (rstep rinit RAction.runNow) RAction.stop)
        (RAction.finishPass true)).inFlight = false := by
  have h := recovery_stop_shuts_down (rstep (rstep rinit RAction.runNow) RAction.stop)
    (RReachable.step RAction.stop (RReachable.step RAction.runNow RReachable.init))
    (by decide)
  exact ⟨h.1, h.2.2 true (by decide)⟩

/-- C10: the effective poll interval and per-pass budget of
`createDeliveryRecoveryLoop` are clamped to at least 1000 ms for every
caller-supplied configuration, and default to 10000 ms and 8000 ms when
unspecified. -/
theorem recovery_timing_clamped :
    ∀ p : RecoveryLoopParams,
      1000 ≤ effectiveIntervalMs p
      ∧ 1000 ≤ effectiveMaxRecoveryMs p
      ∧ effectiveIntervalMs { intervalMs := none, maxRecoveryMs := none } = 10000
      ∧ effectiveMaxRecoveryMs { intervalMs := none, maxRecoveryMs := none } = 8000 := by
  intro p
  exact ⟨le_max_left _ _, le_max_left _ _, by decide, by decide⟩

/-! ### Claim C4: classifier precedence -/

/-- Whether the error carries one of the known ambiguous-condition codes. -/
def CaughtError.hasAmbiguousCode (err : CaughtError) : Bool :=
  match err.upperCode with
  | some code => BLOCK_DELIVERY_AMBIGUOUS_ERRNO_CODES.contains code
  | none => false

/-- Whether the error carries one of the known definitive-transient codes. -/
def CaughtError.hasTransientCode (err : CaughtError) : Bool :=
  match err.upperCode with
  | some code => BLOCK_DELIVERY_TRANSIENT_ERRNO_CODES.contains code
  | none => false

/-- The classifier exactly as the claim states it: explicit permanent
textual/status markers first, then known ambiguous-condition codes together
with the timeout sentinel, then known definitive-transient codes, then
message-pattern regex heuristics in which connect-type message failures are
classified transient-definitive while the (remaining) socket reset/aborted
message patterns are classified transient-ambiguous. -/
def specClassifierStated (isPerm : String → Bool) (err : CaughtError) :
    ReplyDeliveryErrorClass :=
  if isPerm err.msg then .permanent
  else if err.isSentinel || err.hasAmbiguousCode then .transientAmbiguous
  else if err.hasTransientCode then .transientDefinitive
  else if containsIC err.msg "connect" then .transientDefinitive
  else if blockDeliveryAmbiguousMsgMatch err.msg then .transientAmbiguous
  else if blockDeliveryTransientMsgMatch err.msg then .transientDefinitive
  else .permanent

/-- The claim amended to match the source: in the message-pattern stage
connect-type message failures fall under the ambiguous message pattern
(which lists `connect` and `connection`), hence classify
transient-ambiguous like the reset/socket patterns. -/
def specClassifierAmended (isPerm : String → Bool) (err : CaughtError) :
    ReplyDeliveryErrorClass :=
  if isPerm err.msg then .permanent
  else if err.isSentinel || err.hasAmbiguousCode then .transientAmbiguous
  else if err.hasTransientCode then .transientDefinitive
  else if blockDeliveryAmbiguousMsgMatch err.msg then .transientAmbiguous
  else if blockDeliveryTransientMsgMatch err.msg then .transientDefinitive
  else .permanent

/-- C4 counterexample: a failure whose message is "unable to connect" (no
code, no permanent marker, not the sentinel) is classified
transient-ambiguous by `classifyReplyDeliveryError` — the ambiguous message
pattern lists `connect` and is checked before the definitive one — while
the claim's precedence, which counts connect-type message failures as
transient-definitive, yields transient-definitive. -/
theorem classifier_precedence_counterexample :
    classifyReplyDeliveryError (fun _ => false)
        (.raised { message := "unable to connect", code := none })
      = .transientAmbiguous
    ∧ specClassifierStated (fun _ => false)
        (.raised { message := "unable to connect", code := none })
      = .transientDefinitive := by
  constructor <;> decide

/-- C4 amended: whenever the permanent-marker predicate does not fire on the
timeout sentinel's message (as is the case for the fixed "... reply delivery
timed out after ...ms" sentinel text), `classifyReplyDeliveryError` applies
its checks in the order: permanent markers, then the timeout sentinel and
the ambiguous-condition codes, then the definitive-transient codes, then the
ambiguous message patterns (including connect-type failures), then the
definitive message patterns, defaulting to permanent. -/
theorem classifier_precedence_amended :
    ∀ (isPerm : String → Bool) (err : CaughtError),
      (∀ m, err = .sentinel m → isPerm m = false) →
      classifyReplyDeliveryError isPerm err = specClassifierAmended isPerm err := by
  intro isPerm err hsent
  cases err with
  | sentinel m =>
    simp [classifyReplyDeliveryError, specClassifierAmended, CaughtError.msg,
      CaughtError.isSentinel, hsent m rfl]
  | raised e =>
    simp only [classifyReplyDeliveryError, specClassifierAmended, CaughtError.msg,
      CaughtError.isSentinel, CaughtError.hasAmbiguousCode, CaughtError.hasTransientCode,
      Bool.false_or]
    cases hc : CaughtError.upperCode (.raised e) with
    | none => simp
    | some code => simp

/-- C4 amended witness: the amended precedence applied at the
counterexample's concrete input. -/
theorem classifier_precedence_amended_witness :
    classifyReplyDeliveryError (fun _ => false)
        (.raised { message := "unable to connect", code := none })
      = specClassifierAmended (fun _ => false)
        (.raised { message := "unable to connect", code := none }) :=
  classifier_precedence_amended (fun _ => false)
    (.raised { message := "unable to connect", code := none }) (fun _ h => nomatch h)

/-! ### Sender-call counting and retry lemmas (claims C3, C5) -/

/-- Recognizer for sender invocations in a dispatcher trace. -/
def isSenderCall : DEvent → Bool
  | .senderCall _ _ => true
  | _ => false

/-- Number of sender invocations in a dispatcher trace. -/
def countSender (tr : List DEvent) : Nat :=
  tr.countP isSenderCall

theorem countSender_append (tr ts : List DEvent) :
    countSender (tr ++ ts) = countSender tr + countSender ts := by
  simp [countSender, List.countP_append]

theorem countSender_callEvs (i n : Nat) :
    countSender ((List.range n).map fun a => DEvent.senderCall i (a + 1)) = n := by
  simp [countSender, List.countP_map]
  rw [show ((isSenderCall ∘ fun a => DEvent.senderCall i (a + 1))) = fun _ => true from rfl]
  simp [List.countP_true]

theorem countP_senderCall_comp (i n : Nat) :
    List.countP (isSenderCall ∘ fun a => DEvent.senderCall i (a + 1)) (List.range n) = n := by
  rw [show (isSenderCall ∘ fun a => DEvent.senderCall i (a + 1)) = fun _ => true from rfl]
  simp [List.countP_true]

/-- If the first invocation fails with an error the predicate rejects, the
retry engine stops after exactly that one invocation and re-raises it. -/
theorem retryGo_stop_first {σ : Type} (op : Nat → Except CaughtError Unit)
    (sr : σ → CaughtError → Bool × σ) (fuel n : Nat) (s : σ) (e : CaughtError)
    (hop : op n = .error e) (hsr : ∀ t : σ, (sr t e).1 = false) :
    (retryGo op sr fuel n s).1 = .raised e ∧ (retryGo op sr fuel n s).2.1 = n := by
  unfold retryGo
  rw [hop]
  cases fuel with
  | zero => simp
  | succ f =>
    have h1 := hsr s
    cases h : sr s e with
    | mk b s2 =>
      rw [h] at h1
      simp only at h1
      subst h1
      simp [h]

/-- The sender-call count of one chain link is the retry engine's
invocation count. -/
theorem countSender_runJobEvents (cfg : DCfg) (job : DJob) :
    countSender (runJobEvents cfg job)
      = (retryGo (attemptOp cfg job) (dispatcherShouldRetry cfg) (cfg.attempts - 1) 1 0).2.1 := by
  unfold runJobEvents
  cases hr : (retryGo (attemptOp cfg job) (dispatcherShouldRetry cfg) (cfg.attempts - 1) 1 0).1 <;>
    simp only [hr] <;>
    split_ifs <;>
    simp [countSender, countSender_callEvs, countP_senderCall_comp, List.countP_append,
      List.countP_cons, isSenderCall]

/-- The dispatcher never constructs an `AbortController`: no abort event
can appear among a chain link's events. -/
theorem abortFired_not_mem_runJobEvents (cfg : DCfg) (job : DJob) (i : Nat) :
    DEvent.abortFired i ∉ runJobEvents cfg job := by
  unfold runJobEvents
  cases hr : (retryGo (attemptOp cfg job) (dispatcherShouldRetry cfg) (cfg.attempts - 1) 1 0).1 <;>
    simp only [hr] <;>
    split_ifs <;>
    simp [List.mem_append, List.mem_map]

/-- C3: per-class retry behavior of one delivery.  A first rejection
classified permanent causes exactly one sender call and the enqueue settles
failed; with `attempts = 3` the sender is called at most 3 times; a first
rejection classified transient-ambiguous causes exactly one sender call and
the durable record is marked uncertain, not failed. -/
theorem dispatcher_retry_classes (cfg : DCfg) (job : DJob) (e : DeliveryError) :
    (job.env.script 1 = .fail e →
        classifyReplyDeliveryError cfg.isPerm (.raised e) = .permanent →
        countSender (runJobEvents cfg job) = 1
        ∧ DEvent.decided job.idx .failedD ∈ runJobEvents cfg job)
    ∧ (cfg.attempts = 3 → countSender (runJobEvents cfg job) ≤ 3)
    ∧ (job.env.script 1 = .fail e →
        classifyReplyDeliveryError cfg.isPerm (.raised e) = .transientAmbiguous →
        cfg.hasDurableRoute = true → job.env.durableEnqueueOk = true →
        countSender (runJobEvents cfg job) = 1
        ∧ DEvent.durableUncertain job.idx ∈ runJobEvents cfg job
        ∧ DEvent.durableFailed job.idx ∉ runJobEvents cfg job
        ∧ DEvent.decided job.idx .failedD ∈ runJobEvents cfg job) := by
  refine ⟨fun hscript hclass => ?_, fun ha => ?_, fun hscript hclass hroute hok => ?_⟩
  · have hop : attemptOp cfg job 1 = .error (.raised e) := by simp [attemptOp, hscript]
    have hsr : ∀ t : Nat, (dispatcherShouldRetry cfg t (.raised e)).1 = false := by
      intro t
      simp [dispatcherShouldRetry, hclass]
    obtain ⟨hr1, hr2⟩ := retryGo_stop_first (attemptOp cfg job) (dispatcherShouldRetry cfg)
      (cfg.attempts - 1) 1 0 (.raised e) hop hsr
    refine ⟨by rw [countSender_runJobEvents, hr2], ?_⟩
    unfold runJobEvents
    simp only [hr1]
    simp [List.mem_append]
  · have hle := retryGo_calls_le (attemptOp cfg job) (dispatcherShouldRetry cfg)
      (cfg.attempts - 1) 1 0
    rw [countSender_runJobEvents]
    rw [ha] at hle ⊢
    omega
  · have hop : attemptOp cfg job 1 = .error (.raised e) := by simp [attemptOp, hscript]
    have hsr : ∀ t : Nat, (dispatcherShouldRetry cfg t (.raised e)).1 = false := by
      intro t
      simp [dispatcherShouldRetry, hclass]
    obtain ⟨hr1, hr2⟩ := retryGo_stop_first (attemptOp cfg job) (dispatcherShouldRetry cfg)
      (cfg.attempts - 1) 1 0 (.raised e) hop hsr
    refine ⟨by rw [countSender_runJobEvents, hr2], ?_, ?_, ?_⟩
    · unfold runJobEvents
      simp only [hr1]
      simp [hroute, hok, hclass, List.mem_append]
    · unfold runJobEvents
      simp only [hr1]
      split_ifs <;> simp_all [List.mem_append, List.mem_map]
    · unfold runJobEvents
      simp only [hr1]
      simp [List.mem_append]

/-- Concrete configuration used by dispatcher witnesses. -/
def wcfg : DCfg :=
  { isPerm := fun m => m = "disabled", attempts := 3, humanDelay := none,
    deliveryTimeoutMs := 0, hasDurableRoute := true }

/-- A job whose sender always rejects with an `ECONNRESET`-coded error
(classified transient-ambiguous). -/
def wjobAmbiguous : DJob :=
  { idx := 0, kind := .final, shouldDelay := false, priorBlocks := 0,
    env := { script := fun _ => .fail { message := "read ECONNRESET", code := some "ECONNRESET" },
             durableEnqueueOk := true, delayDraw := 0 } }

/-- C3 witness: the transient-ambiguous conjunct evaluated on a concrete
job whose sender rejects with `ECONNRESET`: one sender call, durable record
marked uncertain and not failed, enqueue settled failed. -/
theorem dispatcher_retry_classes_witness :
    countSender (runJobEvents wcfg wjobAmbiguous) = 1
    ∧ DEvent.durableUncertain 0 ∈ runJobEvents wcfg wjobAmbiguous
    ∧ DEvent.durableFailed 0 ∉ runJobEvents wcfg wjobAmbiguous
    ∧ DEvent.decided 0 .failedD ∈ runJobEvents wcfg wjobAmbiguous :=
  (dispatcher_retry_classes wcfg wjobAmbiguous
    { message := "read ECONNRESET", code := some "ECONNRESET" }).2.2
    rfl (by rfl) rfl rfl

/-! ### Claim C5: timeout handling -/

/-- A dispatcher configured with a 5000 ms delivery timeout and no durable
route. -/
def c5cfg : DCfg :=
  { isPerm := fun m => m = "disabled", attempts := 3, humanDelay := none,
    deliveryTimeoutMs := 5000, hasDurableRoute := false }

/-- A job whose delivery attempt times out. -/
def c5job : DJob :=
  { idx := 0, kind := .block, shouldDelay := false, priorBlocks := 0,
    env := { script := fun _ => .timeout, durableEnqueueOk := true, delayDraw := 0 } }

/-- C5 counterexample: in the reply dispatcher a configured timeout expires
on the first attempt — the attempt is not retried and the enqueue settles
failed — yet no cancellation signal reaches the channel sender: the
dispatcher constructs no `AbortController` (`options.deliver` is invoked
with only `{ kind }`), so no abort event exists in the link's events,
contradicting the claim that the attempt "is aborted via a cancellation
signal propagated to the channel sender". -/
theorem timeout_abort_counterexample :
    countSender (runJobEvents c5cfg c5job) = 1
    ∧ DEvent.decided 0 .failedD ∈ runJobEvents c5cfg c5job
    ∧ DEvent.abortFired 0 ∉ runJobEvents c5cfg c5job := by
  refine ⟨by decide, by decide, abortFired_not_mem_runJobEvents c5cfg c5job 0⟩

/-- One pipeline link whose first attempt times out: the timeout sentinel
is never retried (`shouldRetry` requires `err !== timeoutError`), the
`AbortController` is aborted, and the sender invocation had received the
abort signal. -/
theorem pipeline_timeout_step (cfg : PCfg) (s : PState) (job : PJob) (rest : List PJob)
    (hq : s.chainQueue = job :: rest) (hscript : job.script 1 = .timeout) :
    (pstep cfg s .runLink).trace
      = s.trace ++ [.senderCall job.key 1 true, .abortTriggered job.key,
          .failedEv job.key "timeout"] := by
  have hop : pAttemptOp cfg job 1
      = .error (.sentinel ("block reply delivery timed out after "
          ++ toString cfg.timeoutMs ++ "ms")) := by
    simp [pAttemptOp, hscript]
  have hsr : ∀ t : Unit,
      ((fun (_ : Unit) e => (pipelineShouldRetry e, ())) t
        (.sentinel ("block reply delivery timed out after "
          ++ toString cfg.timeoutMs ++ "ms"))).1 = false := by
    intro t
    simp [pipelineShouldRetry]
  obtain ⟨hr1, hr2⟩ := retryGo_stop_first (pAttemptOp cfg job)
    (fun (_ : Unit) e => (pipelineShouldRetry e, ())) (cfg.attempts - 1) 1 ()
    (.sentinel ("block reply delivery timed out after " ++ toString cfg.timeoutMs ++ "ms"))
    hop hsr
  simp only [pstep, hq]
  simp only [hr1, hr2]
  simp [List.range_succ]

/-- C5 amended: when a configured delivery timeout expires on an attempt,
the failure is treated as the ambiguous timeout case and is not retried
inline.  In the reply dispatcher the sentinel is classified
transient-ambiguous (never transient-definitive), the enqueue settles
failed after that single sender call, and — unlike the claim's wording —
no cancellation signal is propagated to the sender (there is no abort
event in the dispatcher's alphabet of emitted events).  In the block-reply
pipeline the timeout additionally fires `abortController.abort()`, whose
signal had been passed to the sender invocation, and the attempt is
likewise not retried. -/
theorem timeout_handling_amended :
    ∀ (cfg : DCfg) (job : DJob) (pcfg : PCfg) (s : PState) (pjob : PJob) (rest : List PJob),
      (0 < cfg.deliveryTimeoutMs → job.env.script 1 = .timeout →
        countSender (runJobEvents cfg job) = 1
        ∧ DEvent.decided job.idx .failedD ∈ runJobEvents cfg job
        ∧ (∀ m, classifyReplyDeliveryError cfg.isPerm (.sentinel m) = .transientAmbiguous)
        ∧ (∀ i, DEvent.abortFired i ∉ runJobEvents cfg job))
      ∧ (s.chainQueue = pjob :: rest → pjob.script 1 = .timeout →
          (pstep pcfg s .runLink).trace
            = s.trace ++ [.senderCall pjob.key 1 true, .abortTriggered pjob.key,
                .failedEv pjob.key "timeout"]) := by
  intro cfg job pcfg s pjob rest
  refine ⟨fun _ hscript => ?_, fun hq hscript => pipeline_timeout_step pcfg s pjob rest hq hscript⟩
  have hop : attemptOp cfg job 1
      = .error (.sentinel (timeoutSentinelMessage job.kind cfg.deliveryTimeoutMs)) := by
    simp [attemptOp, hscript]
  have hsr : ∀ t : Nat, (dispatcherShouldRetry cfg t
      (.sentinel (timeoutSentinelMessage job.kind cfg.deliveryTimeoutMs))).1 = false := by
    intro t
    simp [dispatcherShouldRetry, classifyReplyDeliveryError]
  obtain ⟨hr1, hr2⟩ := retryGo_stop_first (attemptOp cfg job) (dispatcherShouldRetry cfg)
    (cfg.attempts - 1) 1 0 _ hop hsr
  refine ⟨by rw [countSender_runJobEvents, hr2], ?_, fun m => rfl,
    fun i => abortFired_not_mem_runJobEvents cfg job i⟩
  unfold runJobEvents
  simp only [hr1]
  simp [List.mem_append]

/-- C5 amended witness: the amended statement applied to the concrete
timed-out dispatcher job and to a concrete pipeline state holding one
timed-out link. -/
theorem timeout_handling_amended_witness :
    countSender (runJobEvents c5cfg c5job) = 1
    ∧ (pstep { timeoutMs := 5000, attempts := 3 }
        { pinit with
            chainQueue := [{ key := { text := "hi", mediaList := [], replyToId := none },
                             script := fun _ => .timeout }] } .runLink).trace
      = [.senderCall { text := "hi", mediaList := [], replyToId := none } 1 true,
         .abortTriggered { text := "hi", mediaList := [], replyToId := none },
         .failedEv { text := "hi", mediaList := [], replyToId := none } "timeout"] := by
  have h := timeout_handling_amended c5cfg c5job { timeoutMs := 5000, attempts := 3 }
    { pinit with
        chainQueue := [{ key := { text := "hi", mediaList := [], replyToId := none },
                         script := fun _ => .timeout }] }
    { key := { text := "hi", mediaList := [], replyToId := none },
      script := fun _ => .timeout } []
  exact ⟨(h.1 (by decide) rfl).1, h.2 rfl rfl⟩

/-! ### Claim C9: human-like delay -/

/-- The configured mode string (`config?.mode ?? "off"`). -/
def humanDelayMode (config : Option HumanDelayCfg) : String :=
  (config.bind HumanDelayCfg.mode).getD "off"

/-- The effective lower bound of the delay range. -/
def humanDelayMin (config : Option HumanDelayCfg) : Nat :=
  if humanDelayMode config = "custom" then (config.bind HumanDelayCfg.minMs).getD 800 else 800

/-- The effective upper bound of the delay range. -/
def humanDelayMax (config : Option HumanDelayCfg) : Nat :=
  if humanDelayMode config = "custom" then (config.bind HumanDelayCfg.maxMs).getD 2500 else 2500

theorem getHumanDelay_eq (config : Option HumanDelayCfg) (draw : Nat) :
    getHumanDelay config draw =
      if humanDelayMode config = "off" then 0
      else if humanDelayMax config ≤ humanDelayMin config then humanDelayMin config
      else min draw (humanDelayMax config - humanDelayMin config) + humanDelayMin config :=
  rfl

/-- The generated delay always lies within the configured range. -/
theorem getHumanDelay_bounds (config : Option HumanDelayCfg) (draw : Nat)
    (h : humanDelayMode config ≠ "off") :
    humanDelayMin config ≤ getHumanDelay config draw
    ∧ getHumanDelay config draw ≤ max (humanDelayMin config) (humanDelayMax config) := by
  rw [getHumanDelay_eq]
  split_ifs with h1 h2
  · exact absurd h1 h
  · rw [Nat.max_eq_left h2]
    omega
  · have hmin := Nat.min_le_right draw (humanDelayMax config - humanDelayMin config)
    have hle : humanDelayMin config ≤ humanDelayMax config := by omega
    rw [Nat.max_eq_right hle]
    omega

theorem settleFinally_fields (s : DState) :
    (settleFinally s).chainQueue = s.chainQueue
    ∧ (settleFinally s).nextIdx = s.nextIdx
    ∧ (settleFinally s).sentFirstBlock = s.sentFirstBlock
    ∧ (settleFinally s).queuedBlock = s.queuedBlock
    ∧ (settleFinally s).completeCalled = s.completeCalled
    ∧ (settleFinally s).completeTickPending = s.completeTickPending
    ∧ ((settleFinally s).trace = s.trace ∨ (settleFinally s).trace = s.trace ++ [DEvent.idle]) := by
  unfold settleFinally
  dsimp only
  split_ifs <;> simp

/-- A sleep is emitted while a link runs exactly when the link was flagged
for delay and the drawn delay is positive, and it sleeps exactly the drawn
delay. -/
theorem sleep_mem_runJobEvents (cfg : DCfg) (job : DJob) (i ms : Nat) :
    DEvent.sleep i ms ∈ runJobEvents cfg job ↔
      (i = job.idx ∧ job.shouldDelay = true
       ∧ ms = getHumanDelay cfg.humanDelay job.env.delayDraw
       ∧ 0 < getHumanDelay cfg.humanDelay job.env.delayDraw) := by
  unfold runJobEvents
  cases hr : (retryGo (attemptOp cfg job) (dispatcherShouldRetry cfg) (cfg.attempts - 1) 1 0).1 <;>
    simp only [hr] <;>
    split_ifs <;>
    simp_all [List.mem_append, List.mem_map]

/-- The shouldDelay flag of every queued link records "block kind with at
least one previously accepted block", and the sentFirstBlock flag tracks
whether any block has been accepted. -/
theorem delay_flag_invariant (cfg : DCfg) :
    ∀ s : DState, DReachable cfg s →
      s.sentFirstBlock = decide (0 < s.queuedBlock)
      ∧ ∀ job ∈ s.chainQueue,
          job.shouldDelay
            = (decide (job.kind = RDKind.block) && decide (0 < job.priorBlocks)) := by
  intro s h
  induction h with
  | init => simp [dinit]
  | step a h ih =>
    obtain ⟨ih1, ih2⟩ := ih
    rename_i s
    cases a with
    | enq req =>
      simp only [dstep]
      split
      · constructor
        · by_cases hk : req.kind = RDKind.block <;> simp [hk, ih1]
        · intro job hjob
          simp only [List.mem_append, List.mem_singleton] at hjob
          rcases hjob with hjob | hjob
          · exact ih2 job hjob
          · subst hjob
            simp only
            rw [ih1]
      · exact ⟨ih1, ih2⟩
    | runLink =>
      rcases hcq : s.chainQueue with _ | ⟨job, rest⟩
      · simp only [dstep, hcq]
        exact ⟨ih1, by simp⟩
      · simp only [dstep, hcq]
        obtain ⟨h1, _, h3, h4, _, _, _⟩ := settleFinally_fields
          { s with chainQueue := rest, trace := s.trace ++ runJobEvents cfg job }
        rw [h1, h3, h4]
        refine ⟨ih1, fun j hj => ih2 j ?_⟩
        rw [hcq]
        exact List.mem_cons_of_mem _ hj
    | markComplete =>
      simp only [dstep]
      split <;> exact ⟨ih1, ih2⟩
    | completeTick =>
      simp only [dstep]
      split
      · split <;> exact ⟨ih1, ih2⟩
      · exact ⟨ih1, ih2⟩

/-- A dispatcher with human delay enabled in its default (non-custom) mode
and a first block whose delivery fails permanently. -/
def cfg9 : DCfg :=
  { isPerm := fun m => m = "bad request", attempts := 3,
    humanDelay := some { mode := some "on", minMs := none, maxMs := none },
    deliveryTimeoutMs := 0, hasDurableRoute := false }

/-- First block enqueue: its delivery fails with a permanent error, so it
is never sent. -/
def req9A : EnqueueReq :=
  { kind := .block, accepted := true, skipReason := "",
    env := { script := fun _ => .fail { message := "bad request", code := none },
             durableEnqueueOk := true, delayDraw := 0 } }

/-- Second block enqueue: delivered on the first attempt. -/
def req9B : EnqueueReq :=
  { kind := .block, accepted := true, skipReason := "",
    env := { script := fun _ => .ok, durableEnqueueOk := true, delayDraw := 0 } }

/-- The delay condition exactly as the claim states it: a sleep before
payload `j`'s delivery happens only when `j` is a block and some earlier
block was already successfully sent. -/
def delayOnlyAfterSentBlock (kindOf : Nat → RDKind) (tr : List DEvent) : Prop :=
  ∀ j ms p, tr.get? p = some (.sleep j ms) →
    kindOf j = RDKind.block ∧
    ∃ i q, i < j ∧ q < p ∧ kindOf i = RDKind.block
      ∧ tr.get? q = some (.decided i .sentD)

/-- C9 counterexample: enqueue two blocks where the first one's delivery
fails (it is never sent).  The source sets `sentFirstBlock` when a block is
accepted, not when it is sent, so the second block still sleeps the
human-like delay — no prior block was ever sent, contradicting the claim's
"at least one prior block has already been sent". -/
theorem human_delay_counterexample :
    (drun cfg9 dinit [.enq req9A, .runLink, .enq req9B, .runLink]).trace
      = [DEvent.senderCall 0 1, DEvent.decided 0 .failedD, DEvent.sleep 1 800,
         DEvent.senderCall 1 1, DEvent.decided 1 .sentD]
    ∧ ¬ delayOnlyAfterSentBlock (fun _ => RDKind.block)
        (drun cfg9 dinit [.enq req9A, .runLink, .enq req9B, .runLink]).trace := by
  have htr : (drun cfg9 dinit [.enq req9A, .runLink, .enq req9B, .runLink]).trace
      = [DEvent.senderCall 0 1, DEvent.decided 0 .failedD, DEvent.sleep 1 800,
         DEvent.senderCall 1 1, DEvent.decided 1 .sentD] := by decide
  refine ⟨htr, fun h => ?_⟩
  rw [htr] at h
  obtain ⟨-, i, q, hij, hqp, -, hdec⟩ := h 1 800 2 rfl
  interval_cases q <;> simp_all

/-- C9 amended: a randomized human-like delay is slept before a delivery if
and only if the payload is of kind block, at least one prior block was
already accepted for delivery by the same dispatcher (whether or not its
delivery succeeded), and the drawn delay is positive; the delay equals the
draw of `getHumanDelay`, which is 0 when the mode is off and otherwise lies
in the configured min/max range; tool/final payloads and the first accepted
block are never delayed. -/
theorem human_delay_amended :
    ∀ (cfg : DCfg) (s : DState), DReachable cfg s →
      s.sentFirstBlock = decide (0 < s.queuedBlock)
      ∧ (∀ job ∈ s.chainQueue,
          job.shouldDelay
            = (decide (job.kind = RDKind.block) && decide (0 < job.priorBlocks)))
      ∧ (∀ (job : DJob) (i ms : Nat),
          DEvent.sleep i ms ∈ runJobEvents cfg job ↔
            (i = job.idx ∧ job.shouldDelay = true
             ∧ ms = getHumanDelay cfg.humanDelay job.env.delayDraw
             ∧ 0 < getHumanDelay cfg.humanDelay job.env.delayDraw))
      ∧ (∀ draw, humanDelayMode cfg.humanDelay = "off" →
          getHumanDelay cfg.humanDelay draw = 0)
      ∧ (∀ draw, humanDelayMode cfg.humanDelay ≠ "off" →
          humanDelayMin cfg.humanDelay ≤ getHumanDelay cfg.humanDelay draw
          ∧ getHumanDelay cfg.humanDelay draw
              ≤ max (humanDelayMin cfg.humanDelay) (humanDelayMax cfg.humanDelay)) := by
  intro cfg s h
  obtain ⟨h1, h2⟩ := delay_flag_invariant cfg s h
  refine ⟨h1, h2, fun job i ms => sleep_mem_runJobEvents cfg job i ms,
    fun draw hoff => ?_, fun draw hoff => getHumanDelay_bounds cfg.humanDelay draw hoff⟩
  rw [getHumanDelay_eq]
  simp [hoff]

/-- C9 amended witness: the delay-range part evaluated on the concrete
enabled-mode configuration. -/
theorem human_delay_amended_witness :
    humanDelayMin cfg9.humanDelay ≤ getHumanDelay cfg9.humanDelay 0
    ∧ getHumanDelay cfg9.humanDelay 0
        ≤ max (humanDelayMin cfg9.humanDelay) (humanDelayMax cfg9.humanDelay) :=
  (human_delay_amended cfg9 dinit DReachable.init).2.2.2.2 0 (by decide)

/-! ### Claim C2: idempotent enqueue (pipeline dedup) -/

/-- How many times key `k` was queued for sending. -/
def countQueuedForSend (tr : List PEvent) (k : PKey) : Nat :=
  tr.countP fun e => e == PEvent.queuedForSend k

theorem countQueuedForSend_append (tr ts : List PEvent) (k : PKey) :
    countQueuedForSend (tr ++ ts) k = countQueuedForSend tr k + countQueuedForSend ts k := by
  simp [countQueuedForSend, List.countP_append]

theorem countQueuedForSend_pos_iff (tr : List PEvent) (k : PKey) :
    0 < countQueuedForSend tr k ↔ PEvent.queuedForSend k ∈ tr := by
  rw [countQueuedForSend, List.countP_pos_iff]
  constructor
  · rintro ⟨e, he, heq⟩
    rw [beq_iff_eq] at heq
    exact heq ▸ he
  · intro h
    exact ⟨_, h, by simp⟩

/-- The dedup invariant of one pipeline instance: sent, pending and queued
keys are all seen; a key passes the `sendPayload` guard at most once; and
every sender call belongs to a key that passed the guard. -/
theorem pipeline_invariant (cfg : PCfg) :
    ∀ s : PState, PReachable cfg s →
      (∀ k ∈ s.sentKeys, k ∈ s.seenKeys)
      ∧ (∀ k ∈ s.pendingKeys, k ∈ s.seenKeys)
      ∧ (∀ job ∈ s.chainQueue, job.key ∈ s.seenKeys)
      ∧ (∀ job ∈ s.chainQueue, PEvent.queuedForSend job.key ∈ s.trace)
      ∧ (∀ k : PKey, PEvent.queuedForSend k ∈ s.trace → k ∈ s.seenKeys)
      ∧ (∀ k : PKey, countQueuedForSend s.trace k ≤ 1)
      ∧ (∀ (k : PKey) (a : Nat) (b : Bool),
          PEvent.senderCall k a b ∈ s.trace → PEvent.queuedForSend k ∈ s.trace) := by
  intro s h
  induction h with
  | init =>
    refine ⟨?_, ?_, ?_, ?_, ?_, ?_, ?_⟩ <;> simp [pinit, countQueuedForSend]
  | step a h ih =>
    obtain ⟨ih1, ih2, ih3, ih4, ih5, ih6, ih7⟩ := ih
    rename_i s
    cases a with
    | enq p script =>
      simp only [pstep]
      split
      · rename_i hseen
        refine ⟨ih1, ih2, ih3, ?_, ?_, ?_, ?_⟩
        · intro job hjob
          exact List.mem_append_left _ (ih4 job hjob)
        · intro k hk
          rcases List.mem_append.mp hk with hk | hk
          · exact ih5 k hk
          · simp at hk
        · intro k
          rw [countQueuedForSend_append]
          have h0 : countQueuedForSend [PEvent.skipped "duplicate-seen"] k = 0 := rfl
          rw [h0]
          simpa using ih6 k
        · intro k a b hk
          rcases List.mem_append.mp hk with hk | hk
          · exact List.mem_append_left _ (ih7 k a b hk)
          · simp at hk
      · rename_i hseen
        split
        · refine ⟨?_, ?_, ?_, ?_, ?_, ?_, ?_⟩
          · intro k hk
            exact List.mem_append_left _ (ih1 k hk)
          · intro k hk
            exact List.mem_append_left _ (ih2 k hk)
          · intro job hjob
            exact List.mem_append_left _ (ih3 job hjob)
          · intro job hjob
            exact List.mem_append_left _ (ih4 job hjob)
          · intro k hk
            rcases List.mem_append.mp hk with hk | hk
            · exact List.mem_append_left _ (ih5 k hk)
            · simp at hk
          · intro k
            rw [countQueuedForSend_append]
            have h0 : countQueuedForSend [PEvent.skipped "duplicate-pending"] k = 0 := rfl
            rw [h0]
            simpa using ih6 k
          · intro k a b hk
            rcases List.mem_append.mp hk with hk | hk
            · exact List.mem_append_left _ (ih7 k a b hk)
            · simp at hk
        · refine ⟨?_, ?_, ?_, ?_, ?_, ?_, ?_⟩
          · intro k hk
            exact List.mem_append_left _ (ih1 k hk)
          · intro k hk
            rcases List.mem_append.mp hk with hk | hk
            · exact List.mem_append_left _ (ih2 k hk)
            · simp only [List.mem_singleton] at hk
              subst hk
              exact List.mem_append_right _ (by simp)
          · intro job hjob
            rcases List.mem_append.mp hjob with hjob | hjob
            · exact List.mem_append_left _ (ih3 job hjob)
            · simp only [List.mem_singleton] at hjob
              subst hjob
              exact List.mem_append_right _ (by simp)
          · intro job hjob
            rcases List.mem_append.mp hjob with hjob | hjob
            · exact List.mem_append_left _ (ih4 job hjob)
            · simp only [List.mem_singleton] at hjob
              subst hjob
              exact List.mem_append_right _ (by simp)
          · intro k hk
            rcases List.mem_append.mp hk with hk | hk
            · exact List.mem_append_left _ (ih5 k hk)
            · simp only [List.mem_singleton, PEvent.queuedForSend.injEq] at hk
              subst hk
              exact List.mem_append_right _ (by simp)
          · intro k
            rw [countQueuedForSend_append]
            by_cases hks : k = createBlockReplyPayloadKey p
            · have h0 : countQueuedForSend s.trace k = 0 := by
                by_contra hpos
                have hmem := (countQueuedForSend_pos_iff s.trace k).mp (Nat.pos_of_ne_zero hpos)
                have hsk := ih5 k hmem
                rw [hks] at hsk
                exact absurd hsk hseen
              rw [h0]
              have h1 : countQueuedForSend [PEvent.queuedForSend (createBlockReplyPayloadKey p)] k = 1 := by
                simp [countQueuedForSend, List.countP_cons, hks]
              rw [h1]
            · have h1 : countQueuedForSend [PEvent.queuedForSend (createBlockReplyPayloadKey p)] k = 0 := by
                simp [countQueuedForSend, List.countP_cons]
                intro hkk
                exact absurd hkk.symm hks
              rw [h1]
              simpa using ih6 k
          · intro k a b hk
            rcases List.mem_append.mp hk with hk | hk
            · exact List.mem_append_left _ (ih7 k a b hk)
            · simp at hk
    | runLink =>
      rcases hcq : s.chainQueue with _ | ⟨job, rest⟩
      · simp only [pstep, hcq]
        exact ⟨ih1, ih2, by simp, by simp, ih5, ih6, ih7⟩
      · have hjobq : job ∈ s.chainQueue := by rw [hcq]; exact List.mem_cons_self _ _
        have hjobseen := ih3 job hjobq
        have hjobqfs := ih4 job hjobq
        have hrest : ∀ j ∈ rest, j ∈ s.chainQueue := by
          intro j hj
          rw [hcq]
          exact List.mem_cons_of_mem _ hj
        simp only [pstep, hcq]
        rcases hr : (retryGo (pAttemptOp cfg job) (fun _ e => (pipelineShouldRetry e, ()))
            (cfg.attempts - 1) 1 ()).1 with _ | err
        all_goals try rcases err with m | e
        all_goals {
          simp only [hr]
          refine ⟨?_, ?_, ?_, ?_, ?_, ?_, ?_⟩
          · intro k hk
            first
            | (rcases List.mem_append.mp hk with hk | hk
               · exact ih1 k hk
               · simp only [List.mem_singleton] at hk
                 subst hk
                 exact hjobseen)
            | exact ih1 k hk
          · intro k hk
            exact ih2 k (List.mem_filter.mp hk).1
          · intro j hj
            exact ih3 j (hrest j hj)
          · intro j hj
            exact List.mem_append_left _ (List.mem_append_left _ (ih4 j (hrest j hj)))
          · intro k hk
            rcases List.mem_append.mp hk with hk | hk
            · rcases List.mem_append.mp hk with hk | hk
              · exact ih5 k hk
              · exfalso
                rcases List.mem_map.mp hk with ⟨x, -, hx⟩
                cases hx
            · simp at hk
          · intro k
            rw [countQueuedForSend_append, countQueuedForSend_append]
            have hc1 : countQueuedForSend ((List.range
                (retryGo (pAttemptOp cfg job) (fun _ e => (pipelineShouldRetry e, ()))
                  (cfg.attempts - 1) 1 ()).2.1).map
                fun a => PEvent.senderCall job.key (a + 1) true) k = 0 := by
              rw [countQueuedForSend, List.countP_eq_zero]
              intro e he
              rcases List.mem_map.mp he with ⟨x, -, hx⟩
              subst hx
              simp
            have hc2 : ∀ r : String, countQueuedForSend [PEvent.failedEv job.key r] k = 0 := fun r => rfl
            have hc3 : countQueuedForSend [PEvent.sentEv job.key] k = 0 := rfl
            have hc4 : countQueuedForSend [PEvent.abortTriggered job.key,
                PEvent.failedEv job.key "timeout"] k = 0 := rfl
            first
            | (rw [hc1, hc3]; simpa using ih6 k)
            | (rw [hc1, hc4]; simpa using ih6 k)
            | (rw [hc1, hc2]; simpa using ih6 k)
          · intro k a b hk
            rcases List.mem_append.mp hk with hk | hk
            · rcases List.mem_append.mp hk with hk | hk
              · exact List.mem_append_left _ (List.mem_append_left _ (ih7 k a b hk))
              · rcases List.mem_map.mp hk with ⟨x, -, hx⟩
                cases hx
                exact List.mem_append_left _ (List.mem_append_left _ hjobqfs)
            · simp at hk
        }

/-- A text-only payload, as in "two enqueues with identical text and no
media". -/
def pHello : PPayload :=
  { text := some "hello", mediaUrl := none, mediaUrls := none, replyToId := none }

/-- A sender that succeeds on the first attempt. -/
def scrOk : Nat → AttemptOutcome := fun _ => .ok

/-- The pipeline configuration used in concrete examples. -/
def pcfg0 : PCfg := { timeoutMs := 600000, attempts := 3 }

/-- C2: enqueuing a payload whose identity key (normalized text, media
list, reply-to id) equals that of an already sent or currently pending
payload never triggers another sender call: the enqueue settles as skipped
with reason duplicate-seen and adds nothing to the send chain.  Globally,
a key passes the send guard at most once, and every sender call belongs to
a key that passed the guard exactly once.  Concretely, two enqueues with
identical text and no media make the second settle skipped
duplicate-seen. -/
theorem dedup_never_resends :
    ∀ (cfg : PCfg) (s : PState), PReachable cfg s →
      (∀ k : PKey, countQueuedForSend s.trace k ≤ 1)
      ∧ (∀ (p : PPayload) (scr : Nat → AttemptOutcome),
          (createBlockReplyPayloadKey p ∈ s.sentKeys
            ∨ createBlockReplyPayloadKey p ∈ s.pendingKeys) →
          pstep cfg s (.enq p scr)
            = { s with trace := s.trace ++ [.skipped "duplicate-seen"] })
      ∧ (∀ (k : PKey) (a : Nat) (b : Bool),
          PEvent.senderCall k a b ∈ s.trace → PEvent.queuedForSend k ∈ s.trace)
      ∧ (prun pcfg0 pinit [.enq pHello scrOk, .enq pHello scrOk]).trace
          = [PEvent.queuedForSend (createBlockReplyPayloadKey pHello),
             PEvent.skipped "duplicate-seen"] := by
  intro cfg s h
  obtain ⟨h1, h2, h3, h4, h5, h6, h7⟩ := pipeline_invariant cfg s h
  refine ⟨h6, fun p scr hsp => ?_, h7, by decide⟩
  have hseen : createBlockReplyPayloadKey p ∈ s.seenKeys := by
    rcases hsp with hsp | hsp
    · exact h1 _ hsp
    · exact h2 _ hsp
  simp only [pstep]
  rw [if_pos hseen]

/-- C2 witness: after sending a "hello" payload, re-enqueuing an identical
payload settles as skipped duplicate-seen without touching the chain. -/
theorem dedup_never_resends_witness :
    pstep pcfg0 (pstep pcfg0 (pstep pcfg0 pinit (.enq pHello scrOk)) .runLink)
        (.enq pHello scrOk)
      = { pstep pcfg0 (pstep pcfg0 pinit (.enq pHello scrOk)) .runLink with
          trace := (pstep pcfg0 (pstep pcfg0 pinit (.enq pHello scrOk)) .runLink).trace
            ++ [.skipped "duplicate-seen"] } :=
  (dedup_never_resends pcfg0
    (pstep pcfg0 (pstep pcfg0 pinit (.enq pHello scrOk)) .runLink)
    (PReachable.step .runLink (PReachable.step (.enq pHello scrOk) PReachable.init))).2.1
    pHello scrOk (Or.inl (by decide))

/-! ### Claim C6: pending counter

The source documents `markComplete()` as the signal that "no more replies
will come" and conditions the reservation-clearing on "No more replies will
be enqueued" (comments at the `pending` declaration and in the chain's
`finally`).  `DReachableP` is reachability under that documented protocol:
no enqueue action occurs after `markComplete()` has been called.  (Outside
the protocol the counter is not protected: a caller that keeps enqueuing
after completion can drive `pending` below zero, because the
reservation-clearing branch in the `finally` fires again.) -/

inductive DReachableP (cfg : DCfg) : DState → Prop where
  | init : DReachableP cfg dinit
  | step {s : DState} (a : DAction) (hprev : DReachableP cfg s)
      (hcontract : ∀ req, a = DAction.enq req → s.completeCalled = false) :
      DReachableP cfg (dstep cfg s a)

theorem settleFinally_pending_spec (s : DState) :
    (settleFinally s).pending
      = (if s.pending - 1 = 1 ∧ s.completeCalled = true then s.pending - 1 - 1
         else s.pending - 1)
    ∧ (settleFinally s).reservationCleared
      = (s.reservationCleared || decide (s.pending - 1 = 1 ∧ s.completeCalled = true)) := by
  unfold settleFinally
  dsimp only
  split_ifs <;> simp_all

/-- Characterization of one chain link settling (`runLink` on a non-empty
chain): the counter bookkeeping of the link's `finally`. -/
theorem dstep_runLink_cons (cfg : DCfg) (s : DState) (job : DJob) (rest : List DJob)
    (hcq : s.chainQueue = job :: rest) :
    (dstep cfg s .runLink).pending
      = (if s.pending - 1 = 1 ∧ s.completeCalled = true then s.pending - 1 - 1
         else s.pending - 1)
    ∧ (dstep cfg s .runLink).reservationCleared
      = (s.reservationCleared || decide (s.pending - 1 = 1 ∧ s.completeCalled = true))
    ∧ (dstep cfg s .runLink).chainQueue = rest
    ∧ (dstep cfg s .runLink).completeCalled = s.completeCalled
    ∧ (dstep cfg s .runLink).completeTickPending = s.completeTickPending := by
  simp only [dstep, hcq]
  unfold settleFinally
  dsimp only
  split_ifs <;> simp_all

/-- The pending-counter invariant under the documented protocol: `pending`
is the number of unsettled chain links plus the reservation (1 until
cleared), the reservation is cleared only after `markComplete`, the
deferred tick implies `markComplete`, a completed dispatcher with a drained
queue and consumed tick has cleared the reservation, and a cleared
reservation coexists only with a drained queue. -/
theorem pending_invariantP (cfg : DCfg) :
    ∀ s : DState, DReachableP cfg s →
      (s.reservationCleared = false → s.pending = 1 + (s.chainQueue.length : Int))
      ∧ (s.reservationCleared = true → s.pending = (s.chainQueue.length : Int))
      ∧ (s.reservationCleared = true → s.completeCalled = true)
      ∧ (s.completeTickPending = true → s.completeCalled = true)
      ∧ (s.completeCalled = true → s.completeTickPending = false → s.chainQueue = [] →
          s.reservationCleared = true)
      ∧ (s.reservationCleared = true → s.chainQueue = []) := by
  intro s h
  induction h with
  | init => simp [dinit]
  | step a hprev hcontract ih =>
    obtain ⟨ih1, ih1b, ih2, ih3, ih4, ih5⟩ := ih
    rename_i s
    cases a with
    | enq req =>
      have hcalled : s.completeCalled = false := hcontract req rfl
      have hrc : s.reservationCleared = false := by
        cases hrc : s.reservationCleared
        · rfl
        · exact absurd (ih2 hrc) (by simp [hcalled])
      simp only [dstep]
      split
      · refine ⟨fun _ => ?_, fun hrr => absurd hrr (by simp [hrc]), 
          fun hrr => absurd hrr (by simp [hrc]), ih3,
          fun hc => absurd hc (by simp [hcalled]), 
          fun hrr => absurd hrr (by simp [hrc])⟩
        have := ih1 hrc
        simp only [List.length_append, List.length_singleton]
        push_cast
        omega
      · exact ⟨ih1, ih1b, ih2, ih3, fun hc => absurd hc (by simp [hcalled]), ih5⟩
    | runLink =>
      rcases hcq : s.chainQueue with _ | ⟨job, rest⟩
      · have hstep : dstep cfg s .runLink = s := by simp [dstep, hcq]
        rw [hstep]
        exact ⟨ih1, ih1b, ih2, ih3, ih4, ih5⟩
      · have hrc : s.reservationCleared = false := by
          cases hrc : s.reservationCleared
          · rfl
          · rw [ih5 hrc] at hcq
            exact absurd hcq (by simp)
        obtain ⟨hp, hr, hq, hcc, htp⟩ := dstep_runLink_cons cfg s job rest hcq
        have hpend := ih1 hrc
        rw [hcq] at hpend
        simp only [List.length_cons] at hpend
        by_cases hclear : s.pending - 1 = 1 ∧ s.completeCalled = true
        · have hrest : rest.length = 0 := by push_cast at hpend; omega
          have hrestnil : rest = [] := List.length_eq_zero.mp hrest
          have hrnew : (dstep cfg s .runLink).reservationCleared = true := by
            rw [hr, hrc]
            simp [hclear]
          refine ⟨fun hf => absurd hf (by simp [hrnew]), fun _ => ?_, fun _ => ?_,
            fun ht => by rw [hcc]; exact ih3 (by rwa [htp] at ht),
            fun _ _ _ => hrnew, fun _ => hq.trans hrestnil⟩
          · rw [hp, hq]
            simp [hclear, hrestnil]
          · rw [hcc]
            exact hclear.2
        · have hrnew : (dstep cfg s .runLink).reservationCleared = false := by
            rw [hr, hrc]
            simp [hclear]
          refine ⟨fun _ => ?_, fun ht => absurd ht (by simp [hrnew]),
            fun ht => absurd ht (by simp [hrnew]),
            fun ht => by rw [hcc]; exact ih3 (by rwa [htp] at ht),
            fun hc2 ht2 hq2 => ?_, fun ht => absurd ht (by simp [hrnew])⟩
          · rw [hp, hq]
            simp only [hclear, if_false]
            push_cast at hpend ⊢
            omega
          · exfalso
            rw [hq] at hq2
            subst hq2
            simp at hpend
            rw [hcc] at hc2
            exact hclear ⟨by omega, hc2⟩
    | markComplete =>
      simp only [dstep]
      split
      · exact ⟨ih1, ih1b, ih2, ih3, ih4, ih5⟩
      · exact ⟨ih1, ih1b, fun _ => rfl, fun _ => rfl,
          fun _ ht => absurd ht (by simp), ih5⟩
    | completeTick =>
      simp only [dstep]
      split
      · rename_i hguard
        obtain ⟨htick, hnr⟩ := hguard
        have hrc : s.reservationCleared = false := by simpa using hnr
        have hpend := ih1 hrc
        split
        · rename_i hcond
          have hlen : (s.chainQueue.length : Int) = 0 := by
            rw [hcond.1] at hpend
            omega
          have hqnil : s.chainQueue = [] := by
            cases hq2 : s.chainQueue with
            | nil => rfl
            | cons x xs =>
              rw [hq2] at hlen
              simp only [List.length_cons] at hlen
              exfalso
              omega
          refine ⟨fun hf => absurd hf (by simp), fun _ => ?_, fun _ => hcond.2,
            fun ht => absurd ht (by simp), fun _ _ _ => rfl, fun _ => hqnil⟩
          simp [hqnil]
        · rename_i hcond
          refine ⟨ih1, fun ht => absurd ht (by simp [hrc]), 
            fun ht => absurd ht (by simp [hrc]),
            fun ht => absurd ht (by simp), fun hc2 _ hq2 => ?_,
            fun ht => absurd ht (by simp [hrc])⟩
          exfalso
          rw [hq2] at hpend
          simp at hpend
          exact hcond ⟨by omega, hc2⟩
      · exact ⟨ih1, ih1b, ih2, ih3, ih4, ih5⟩

/-- C6: under the documented protocol (no enqueue after `markComplete`),
the pending counter is always non-negative; it is zero only when every
enqueued payload has settled (the chain is drained) and `markComplete` has
been called; once `markComplete` has been called, its deferred continuation
has run and the chain is drained, the counter is zero; and `markComplete`
called before any enqueue resolves idle — the run emits only the idle
signal and never invokes the sender. -/
theorem pending_counter_correct :
    ∀ (cfg : DCfg) (s : DState), DReachableP cfg s →
      0 ≤ s.pending
      ∧ (s.pending = 0 → s.completeCalled = true ∧ s.chainQueue = [])
      ∧ (s.completeCalled = true → s.completeTickPending = false → s.chainQueue = [] →
          s.pending = 0)
      ∧ (drun cfg dinit [DAction.markComplete, DAction.completeTick]).pending = 0
      ∧ (drun cfg dinit [DAction.markComplete, DAction.completeTick]).trace
          = [DEvent.idle] := by
  intro cfg s h
  obtain ⟨i1, i1b, i2, i3, i4, i5⟩ := pending_invariantP cfg s h
  refine ⟨?_, fun hp0 => ?_, fun hc ht hq => ?_, rfl, rfl⟩
  · cases hrc : s.reservationCleared
    · have := i1 hrc
      omega
    · have := i1b hrc
      omega
  · cases hrc : s.reservationCleared
    · have := i1 hrc
      omega
    · exact ⟨i2 hrc, i5 hrc⟩
  · have hrc := i4 hc ht hq
    have := i1b hrc
    rw [hq] at this
    simpa using this

/-- The dispatcher configuration used by claim-C6 and C1 witnesses. -/
def cfg6 : DCfg :=
  { isPerm := fun _ => false, attempts := 3, humanDelay := none,
    deliveryTimeoutMs := 0, hasDurableRoute := false }

/-- A tool payload delivered on the first attempt. -/
def req6 : EnqueueReq :=
  { kind := .tool, accepted := true, skipReason := "",
    env := { script := scrOk, durableEnqueueOk := true, delayDraw := 0 } }

/-- C6 witness: the counter facts evaluated after one concrete enqueue, and
the idle-without-sender run. -/
theorem pending_counter_correct_witness :
    0 ≤ (dstep cfg6 dinit (DAction.enq req6)).pending
    ∧ (drun cfg6 dinit [DAction.markComplete, DAction.completeTick]).pending = 0 := by
  have h := pending_counter_correct cfg6 (dstep cfg6 dinit (.enq req6))
    (DReachableP.step (.enq req6) DReachableP.init (fun _ _ => rfl))
  exact ⟨h.1, h.2.2.2.1⟩

/-! ### Claim C1: strict enqueue-order delivery -/

/-- A trace is ordered when no sender call for a later payload precedes
the decision event of an earlier payload: wherever the sender is invoked
for payload `j`, every payload `i < j` was already decided (sent, skipped
or failed) strictly earlier in the trace. -/
def OrderedTrace (tr : List DEvent) : Prop :=
  ∀ i j a p, i < j → tr.get? p = some (DEvent.senderCall j a) →
    ∃ q o, q < p ∧ tr.get? q = some (DEvent.decided i o)

theorem orderedTrace_nil : OrderedTrace [] := by
  intro i j a p _ hp
  simp at hp

/-- Appending events containing no sender call preserves trace order. -/
theorem orderedTrace_append (tr evs : List DEvent)
    (h : OrderedTrace tr)
    (hno : ∀ j a, DEvent.senderCall j a ∉ evs) :
    OrderedTrace (tr ++ evs) := by
  intro i j a p hij hp
  by_cases hlt : p < tr.length
  · rw [List.get?_append hlt] at hp
    obtain ⟨q, o, hq, hget⟩ := h i j a p hij hp
    exact ⟨q, o, hq, by rw [List.get?_append (lt_trans hq hlt)]; exact hget⟩
  · push_neg at hlt
    rw [List.get?_append_right hlt] at hp
    exact absurd (List.get?_mem hp) (hno j a)

/-- Appending one link's events preserves trace order, provided all its
sender calls belong to payload `m` and every payload below `m` is already
decided in the existing trace. -/
theorem orderedTrace_append_link (tr evs : List DEvent) (m : Nat)
    (h : OrderedTrace tr)
    (hidx : ∀ j a, DEvent.senderCall j a ∈ evs → j = m)
    (hdec : ∀ i, i < m → ∃ o, DEvent.decided i o ∈ tr) :
    OrderedTrace (tr ++ evs) := by
  intro i j a p hij hp
  by_cases hlt : p < tr.length
  · rw [List.get?_append hlt] at hp
    obtain ⟨q, o, hq, hget⟩ := h i j a p hij hp
    exact ⟨q, o, hq, by rw [List.get?_append (lt_trans hq hlt)]; exact hget⟩
  · push_neg at hlt
    rw [List.get?_append_right hlt] at hp
    have hj := hidx j a (List.get?_mem hp)
    subst hj
    obtain ⟨o, ho⟩ := hdec i hij
    obtain ⟨q, hq⟩ := List.get?_of_mem ho
    have hqlt : q < tr.length := by
      by_contra hge
      push_neg at hge
      rw [List.get?_eq_none.mpr hge] at hq
      cases hq
    exact ⟨q, o, lt_of_lt_of_le hqlt hlt, by rw [List.get?_append hqlt]; exact hq⟩

/-- Every event a link emits belongs to that link's payload. -/
theorem runJobEvents_tag (cfg : DCfg) (job : DJob) :
    ∀ e ∈ runJobEvents cfg job, DEvent.tag e = some job.idx := by
  intro e he
  unfold runJobEvents at he
  dsimp only at he
  cases hr : (retryGo (attemptOp cfg job) (dispatcherShouldRetry cfg)
      (cfg.attempts - 1) 1 0).1 <;>
    rw [hr] at he <;>
    split_ifs at he <;>
    simp only [List.mem_append, List.mem_map, List.mem_singleton, List.mem_cons,
      List.not_mem_nil, or_false, false_or] at he <;>
    aesop

/-- Sender calls emitted by a link carry the link's payload index. -/
theorem runJobEvents_senderIdx (cfg : DCfg) (job : DJob) (j a : Nat)
    (h : DEvent.senderCall j a ∈ runJobEvents cfg job) : j = job.idx := by
  have := runJobEvents_tag cfg job _ h
  simpa [DEvent.tag] using this

/-- Every link's events contain its decision event. -/
theorem runJobEvents_decided (cfg : DCfg) (job : DJob) :
    ∃ o, DEvent.decided job.idx o ∈ runJobEvents cfg job := by
  unfold runJobEvents
  cases hr : (retryGo (attemptOp cfg job) (dispatcherShouldRetry cfg)
      (cfg.attempts - 1) 1 0).1 with
  | success =>
    simp only [hr]
    exact ⟨.sentD, by simp [List.mem_append]⟩
  | raised err =>
    simp only [hr]
    exact ⟨.failedD, by simp [List.mem_append]⟩

/-- The ordering invariant of one dispatcher instance: queued links carry
strictly increasing payload indices below the enqueue counter, every
payload index below the counter is either decided in the trace or still
queued, and the trace itself is ordered. -/
theorem order_invariant (cfg : DCfg) :
    ∀ s : DState, DReachable cfg s →
      (s.chainQueue.map DJob.idx).Pairwise (· < ·)
      ∧ (∀ job ∈ s.chainQueue, job.idx < s.nextIdx)
      ∧ (∀ i, i < s.nextIdx →
          (∃ o, DEvent.decided i o ∈ s.trace) ∨ ∃ job ∈ s.chainQueue, job.idx = i)
      ∧ OrderedTrace s.trace := by
  intro s h
  induction h with
  | init => exact ⟨by simp [dinit], by simp [dinit], by simp [dinit], orderedTrace_nil⟩
  | step a hprev ih =>
    obtain ⟨ih1, ih2, ih3, ih4⟩ := ih
    rename_i s
    cases a with
    | enq req =>
      simp only [dstep]
      split
      · refine ⟨?_, ?_, ?_, ih4⟩
        · rw [List.map_append]
          rw [List.pairwise_append]
          refine ⟨ih1, by simp, ?_⟩
          intro x hx y hy
          simp only [List.map_singleton, List.mem_singleton] at hy
          subst hy
          obtain ⟨jb, hjb, rfl⟩ := List.mem_map.mp hx
          exact ih2 jb hjb
        · intro job hjob
          rcases List.mem_append.mp hjob with hjob | hjob
          · exact Nat.lt_succ_of_lt (ih2 job hjob)
          · simp only [List.mem_singleton] at hjob
            subst hjob
            exact Nat.lt_succ_self _
        · intro i hi
          rcases Nat.lt_succ_iff_lt_or_eq.mp hi with hi | hi
          · rcases ih3 i hi with hdec | ⟨job, hjob, hidx⟩
            · exact Or.inl hdec
            · exact Or.inr ⟨job, List.mem_append_left _ hjob, hidx⟩
          · subst hi
            exact Or.inr ⟨_, List.mem_append_right _ (List.mem_singleton_self _), rfl⟩
      · refine ⟨ih1, fun job hjob => Nat.lt_succ_of_lt (ih2 job hjob), ?_, ?_⟩
        · intro i hi
          rcases Nat.lt_succ_iff_lt_or_eq.mp hi with hi | hi
          · rcases ih3 i hi with ⟨o, ho⟩ | hq
            · exact Or.inl ⟨o, List.mem_append_left _ ho⟩
            · exact Or.inr hq
          · subst hi
            exact Or.inl ⟨_, List.mem_append_right _ (List.mem_singleton_self _)⟩
        · exact orderedTrace_append _ _ ih4 (by simp)
    | runLink =>
      rcases hcq : s.chainQueue with _ | ⟨job, rest⟩
      · have hstep : dstep cfg s .runLink = s := by simp [dstep, hcq]
        rw [hstep]
        exact ⟨ih1, ih2, ih3, ih4⟩
      · rw [hcq] at ih1
        simp only [List.map_cons, List.pairwise_cons] at ih1
        obtain ⟨ihead, itail⟩ := ih1
        have hjobmem : job ∈ s.chainQueue := by rw [hcq]; exact List.mem_cons_self _ _
        have hdecbelow : ∀ i, i < job.idx → ∃ o, DEvent.decided i o ∈ s.trace := by
          intro i hi
          have hin : i < s.nextIdx := lt_trans hi (ih2 job hjobmem)
          rcases ih3 i hin with hdec | ⟨jb, hjb, hidx⟩
          · exact hdec
          · exfalso
            rw [hcq] at hjb
            rcases List.mem_cons.mp hjb with hjb | hjb
            · subst hjb
              omega
            · have := ihead jb.idx (List.mem_map_of_mem DJob.idx hjb)
              omega
        have hord1 : OrderedTrace (s.trace ++ runJobEvents cfg job) :=
          orderedTrace_append_link _ _ job.idx ih4
            (fun j a hja => runJobEvents_senderIdx cfg job j a hja) hdecbelow
        simp only [dstep, hcq]
        obtain ⟨hq, hnext, _, _, _, _, htr⟩ := settleFinally_fields
          { s with chainQueue := rest, trace := s.trace ++ runJobEvents cfg job }
        refine ⟨by rw [hq]; exact itail, ?_, ?_, ?_⟩
        · intro jb hjb
          rw [hq] at hjb
          rw [hnext]
          exact ih2 jb (by rw [hcq]; exact List.mem_cons_of_mem _ hjb)
        · intro i hi
          rw [hnext] at hi
          rcases ih3 i hi with ⟨o, ho⟩ | ⟨jb, hjb, hidx⟩
          · left
            refine ⟨o, ?_⟩
            rcases htr with htr | htr <;> rw [htr]
            · exact List.mem_append_left _ ho
            · exact List.mem_append_left _ (List.mem_append_left _ ho)
          · rw [hcq] at hjb
            rcases List.mem_cons.mp hjb with hjb | hjb
            · subst hjb
              left
              obtain ⟨o, ho⟩ := runJobEvents_decided cfg jb
              refine ⟨o, ?_⟩
              rw [hidx] at ho
              rcases htr with htr | htr <;> rw [htr]
              · exact List.mem_append_right _ ho
              · exact List.mem_append_left _ (List.mem_append_right _ ho)
            · right
              exact ⟨jb, by rw [hq]; exact hjb, hidx⟩
        · rcases htr with htr | htr <;> rw [htr]
          · exact hord1
          · exact orderedTrace_append _ _ hord1 (by simp)
    | markComplete =>
      simp only [dstep]
      split
      · exact ⟨ih1, ih2, ih3, ih4⟩
      · exact ⟨ih1, ih2, ih3, ih4⟩
    | completeTick =>
      simp only [dstep]
      split
      · split
        · refine ⟨ih1, ih2, ?_, orderedTrace_append _ _ ih4 (by simp)⟩
          intro i hi
          rcases ih3 i hi with ⟨o, ho⟩ | hq
          · exact Or.inl ⟨o, List.mem_append_left _ ho⟩
          · exact Or.inr hq
        · exact ⟨ih1, ih2, ih3, ih4⟩
      · exact ⟨ih1, ih2, ih3, ih4⟩

/-- C1: deliveries are attempted in strict enqueue order.  In every
reachable state of a dispatcher, wherever the trace invokes the channel
sender for payload `j`, every payload `i < j` — enqueued earlier on the same
dispatcher — has its terminal decision (sent, skipped or failed) strictly
earlier in the trace, regardless of how many retries or delays any payload
required. -/
theorem strict_enqueue_order :
    ∀ (cfg : DCfg) (s : DState), DReachable cfg s →
      ∀ i j a p, i < j → s.trace.get? p = some (DEvent.senderCall j a) →
        ∃ q o, q < p ∧ s.trace.get? q = some (DEvent.decided i o) := by
  intro cfg s h
  exact (order_invariant cfg s h).2.2.2

/-- C1 witness: two enqueued payloads delivered in order; the sender call
of payload 1 (trace position 2) is preceded by payload 0's decision. -/
theorem strict_enqueue_order_witness :
    ∃ q o, q < 2 ∧
      (dstep cfg6 (dstep cfg6 (dstep cfg6 (dstep cfg6 dinit (.enq req6)) (.enq req6))
          .runLink) .runLink).trace.get? q = some (DEvent.decided 0 o) :=
  strict_enqueue_order cfg6 _
    (DReachable.step _ (DReachable.step _ (DReachable.step _
      (DReachable.step _ DReachable.init)))) 0 1 1 2 (by decide) (by decide)

end OpenClaw
